import Mathlib

/-!
Verification of the gogame engine core (fixed-timestep scheduler, scene
container with deferred removal, broad-phase AABB collision detection and
the enter/stay/exit collision event tracker).

Shallow embedding conventions:
* Go `float64` values (positions, sizes, times) are modelled as `ℚ`.
* Go `uint64` entity identifiers are modelled as `ℕ` (the wrap-around after
  2^64 additions is not modelled).
* Go `int` collision layers/masks are modelled as `ℕ` bit patterns; the
  64-bit truncation of `1 << layer` is kept explicitly (`% 2 ^ 64`).
* Pointer-based in-place mutation is modelled by explicit state passing.
* Behaviors (Go interface values attached to entities) are modelled as
  functions from the entity and delta-time to the mutated entity together
  with the `RemoveEntity` / `AddEntity` calls the behavior issues; the
  scene update takes a map from entity id to its optional behavior.
* Collision callbacks (`OnCollisionEnter` / `OnCollisionStay` /
  `OnCollisionExit`, Go function values) are modelled by presence flags on
  the entity plus an emitted event trace; the events record which callback
  would be invoked on which entity with which other entity.
* Render-only data (sprite, camera, background color, z-order layer) is
  omitted: no claim mentions it.
-/

namespace Gogame

/-- Field `gamemath.Vector2` (engine/math): a 2D vector. -/
structure Vector2 where
  x : ℚ
  y : ℚ
deriving DecidableEq, Repr

/-- Field `gamemath.Transform` (engine/math/transform.go): position,
rotation in degrees, and per-axis scale. -/
structure Transform where
  position : Vector2
  rotation : ℚ
  scale : Vector2
deriving DecidableEq, Repr

/-- Field `gamemath.Rectangle` (engine/math, rectangle source): an
axis-aligned rectangle given by the left edge, top edge, width and
height. -/
structure Rectangle where
  x : ℚ
  y : ℚ
  width : ℚ
  height : ℚ
deriving DecidableEq, Repr

/-- Go `Rectangle.Intersects` from the source: strict overlap on both axes. -/
def Rectangle.intersects (r other : Rectangle) : Bool :=
  decide (r.x < other.x + other.width) &&
  decide (r.x + r.width > other.x) &&
  decide (r.y < other.y + other.height) &&
  decide (r.y + r.height > other.y)

/-- Go `Rectangle.Contains` from the source: point containment, inclusive of
edges. -/
def Rectangle.containsPoint (r : Rectangle) (px py : ℚ) : Bool :=
  decide (px ≥ r.x) &&
  decide (px ≤ r.x + r.width) &&
  decide (py ≥ r.y) &&
  decide (py ≤ r.y + r.height)

/-- Go `physics.Collider` (engine/physics/collider.go): local AABB bounds,
offset, trigger flag, collision layer (a bit position) and collision mask
(a bitset of layers). -/
structure Collider where
  bounds : Rectangle
  offset : Vector2
  isTrigger : Bool
  collisionLayer : ℕ
  collisionMask : ℕ
deriving DecidableEq, Repr

/-- Go `physics.NewCollider`: a collider with centered bounds, on layer 0,
colliding with all layers (mask 0xFFFFFFFF). -/
def NewCollider (width height : ℚ) : Collider :=
  { bounds := { x := -width / 2, y := -height / 2, width := width, height := height }
    offset := { x := 0, y := 0 }
    isTrigger := false
    collisionLayer := 0
    collisionMask := 0xFFFFFFFF }

/-- Go `Collider.GetWorldBounds`: scale the local bounds and offset by the
transform's per-axis scale, then translate by the position. Rotation is
deliberately ignored by the source. -/
def Collider.getWorldBounds (c : Collider) (transform : Transform) : Rectangle :=
  { x := transform.position.x + c.offset.x * transform.scale.x + c.bounds.x * transform.scale.x
    y := transform.position.y + c.offset.y * transform.scale.y + c.bounds.y * transform.scale.y
    width := c.bounds.width * transform.scale.x
    height := c.bounds.height * transform.scale.y }

/-- The 64-bit value of Go's `1 << layer` (`int` shift, truncated to the
machine word). -/
def layerBit (layer : ℕ) : ℕ :=
  2 ^ layer % 2 ^ 64

/-- Go `Collider.Intersects`: layer/mask compatibility check (both masks must
include the other's layer bit), then an AABB overlap test on the world
bounds. -/
def Collider.intersects (c other : Collider) (thisTransform otherTransform : Transform) : Bool :=
  if Nat.land c.collisionMask (layerBit other.collisionLayer) = 0 ∨
     Nat.land other.collisionMask (layerBit c.collisionLayer) = 0 then
    false
  else
    (c.getWorldBounds thisTransform).intersects (other.getWorldBounds otherTransform)

/-- Field `core.Time` (engine/core/time.go): fixed-timestep scheduler
state. Wall-clock timestamps are modelled as rationals (seconds). -/
structure Time where
  dt : ℚ
  accumulator : ℚ
  lastTime : ℚ
  targetFPS : ℚ
  maxFrameTime : ℚ
  minFrameTime : ℚ
  maxObserved : ℚ
  avgFrameTime : ℚ
deriving DecidableEq, Repr

/-- Go `core.NewTime`: 60 FPS target, 0.25 s frame-time cap. The Go code
samples `time.Now()` for the initial `lastTime`; the model takes it as a
parameter. -/
def NewTime (now : ℚ) : Time :=
  { dt := 1 / 60
    accumulator := 0
    lastTime := now
    targetFPS := 60
    maxFrameTime := 1 / 4
    minFrameTime := 1
    maxObserved := 0
    avgFrameTime := 167 / 10000 }

/-- The accumulator-consuming while loop of `Time.Tick`
(`for t.accumulator >= t.dt { t.accumulator -= t.dt; updateCount++ }`).
The Go loop runs while `accumulator ≥ dt`; the model additionally exits
when `dt ≤ 0`, where the Go loop would never terminate (`NewTime` always
has `dt = 1/60 > 0`). Returns the update count and the final
accumulator. -/
def tickLoop (dt acc : ℚ) : ℕ × ℚ :=
  if h : 0 < dt ∧ dt ≤ acc then
    let r := tickLoop dt (acc - dt)
    (r.1 + 1, r.2)
  else
    (0, acc)
termination_by (⌈acc / dt⌉).toNat
decreasing_by
  have hdt : (0 : ℚ) < dt := h.1
  have hle : dt ≤ acc := h.2
  have h1 : (acc - dt) / dt = acc / dt - 1 := by
    field_simp
  have h2 : (1 : ℚ) ≤ acc / dt := (one_le_div hdt).mpr hle
  have h3 : (1 : ℤ) ≤ ⌈acc / dt⌉ := by
    calc (1 : ℤ) = ⌈(1 : ℚ)⌉ := (Int.ceil_one).symm
    _ ≤ ⌈acc / dt⌉ := Int.ceil_le_ceil h2
  rw [h1, Int.ceil_sub_one]
  omega

/-- Go `Time.Tick` (engine/core/time.go lines 50-82): compute the elapsed
wall time since the previous call, update the frame-time metrics (before
clamping), clamp the elapsed time to `maxFrameTime`, add it to the
accumulator, then consume the accumulator in fixed steps. The wall-clock
sample `now` (Go: `time.Now()`) is an explicit parameter. Returns the new
state, the update count, and the fixed `dt`. -/
def Time.tick (t : Time) (now : ℚ) : Time × ℕ × ℚ :=
  let frameTime := now - t.lastTime
  let minFT := if frameTime < t.minFrameTime then frameTime else t.minFrameTime
  let maxObs := if frameTime > t.maxObserved then frameTime else t.maxObserved
  let avg := 1 / 10 * frameTime + (1 - 1 / 10) * t.avgFrameTime
  let clamped := if frameTime > t.maxFrameTime then t.maxFrameTime else frameTime
  let acc := t.accumulator + clamped
  let r := tickLoop t.dt acc
  ({ t with lastTime := now, minFrameTime := minFT, maxObserved := maxObs,
            avgFrameTime := avg, accumulator := r.2 },
   r.1, t.dt)

/-- The clamped elapsed time a given `Tick` call adds to the accumulator
(the spec's clamped elapsed real time of that call). -/
def Time.clampedElapsed (t : Time) (now : ℚ) : ℚ :=
  if now - t.lastTime > t.maxFrameTime then t.maxFrameTime else now - t.lastTime

/-- Run a sequence of `Tick` calls at the given wall-clock samples.
Returns the final scheduler state, the total simulated time
(sum over the calls of `updateCount * dt`) and the total clamped elapsed
real time. -/
def Time.runTicks : Time → List ℚ → Time × ℚ × ℚ
  | t, [] => (t, 0, 0)
  | t, now :: rest =>
    let e := t.clampedElapsed now
    let r := t.tick now
    let rr := Time.runTicks r.1 rest
    (rr.1, (r.2.1 : ℚ) * r.2.2 + rr.2.1, e + rr.2.2)

/-- Collision callback invocations emitted during a tick. `enter self
other` records that `self.OnCollisionEnter(self, other)` is invoked (and
similarly for stay/exit); identifiers are the entity IDs. -/
inductive CollisionEvent where
  | enter (self other : ℕ)
  | stay (self other : ℕ)
  | exit (self other : ℕ)
deriving DecidableEq, Repr

/-- Field `core.Entity` (entity source file): identifier, active flag,
transform, optional collider, and presence flags for the three optional
collision callbacks (Go function values; `true` models a non-nil
handler). The render-only `Sprite` and z-order `Layer` fields and the
`Behavior` interface value are omitted here; behaviors are supplied to
`Scene.update` as a map from entity id (see `Behavior`). -/
structure Entity where
  id : ℕ
  active : Bool
  transform : Transform
  collider : Option Collider
  hasOnEnter : Bool
  hasOnStay : Bool
  hasOnExit : Bool
deriving DecidableEq, Repr

/-- Go `Entity.GetBounds`: world-space bounds from the collider, or a
zero-size rectangle at the entity position when there is no collider. -/
def Entity.getBounds (e : Entity) : Rectangle :=
  match e.collider with
  | some c => c.getWorldBounds e.transform
  | none =>
    { x := e.transform.position.x, y := e.transform.position.y, width := 0, height := 0 }

/-- The effect of one `Behavior.Update(entity, dt)` call: the mutated
entity (Go mutates through the pointer), plus the `RemoveEntity` and
`AddEntity` calls the behavior issued on the scene, in order. This models
the scene access pattern of behaviors in the repository (mutating their
own entity and adding/removing entities); behaviors mutating unrelated
entities are outside the model. -/
structure BehaviorResult where
  entity : Entity
  removals : List ℕ
  additions : List Entity

/-- A behavior (`core.Behavior` interface): custom per-tick logic taking
the entity and the delta time. -/
def Behavior : Type := Entity → ℚ → BehaviorResult

/-- Field `core.Scene` (engine/core/scene.go): entity collection,
monotone id counter, deferred-removal queue, and the previous tick's
colliding-pair set (Go: `map[collisionPairKey]bool`, modelled as the list
of its keys). The render-only camera and background color are omitted. -/
structure Scene where
  entities : List Entity
  nextEntityID : ℕ
  entitiesToRemove : List ℕ
  previousCollisions : List (ℕ × ℕ)
deriving DecidableEq, Repr

attribute [ext] Scene

/-- Go `core.NewScene`: empty scene, ids start at 1. -/
def NewScene : Scene :=
  { entities := [], nextEntityID := 1, entitiesToRemove := [], previousCollisions := [] }

/-- Go `Scene.AddEntity`: assign the next identifier, increment the counter,
append the entity; returns the assigned id. -/
def Scene.addEntity (s : Scene) (entity : Entity) : Scene × ℕ :=
  ({ s with
      entities := s.entities ++ [{ entity with id := s.nextEntityID }]
      nextEntityID := s.nextEntityID + 1 },
   s.nextEntityID)

/-- Go `Scene.RemoveEntity`: queue the id for deferred removal; no immediate
structural change. -/
def Scene.removeEntity (s : Scene) (id : ℕ) : Scene :=
  { s with entitiesToRemove := s.entitiesToRemove ++ [id] }

/-- Go `Scene.processDeferredRemovals`: if the queue is non-empty, filter
out every entity whose id is queued and clear the queue. (The Go code
builds a lookup map from the queue first; membership in the queue is the
same test.) -/
def Scene.processDeferredRemovals (s : Scene) : Scene :=
  if s.entitiesToRemove = [] then s
  else
    { s with
        entities := s.entities.filter (fun e => decide (e.id ∉ s.entitiesToRemove))
        entitiesToRemove := [] }

/-- Go `Scene.GetEntity`: linear search, first match, none if absent. -/
def Scene.getEntity (s : Scene) (id : ℕ) : Option Entity :=
  s.entities.find? (fun e => decide (e.id = id))

/-- Go `Scene.GetAllEntities`: the live collection, inactive entities
included. -/
def Scene.getAllEntities (s : Scene) : List Entity :=
  s.entities

/-- Go `Scene.GetEntitiesAt`: the active entities whose world bounds contain
the point, in collection order. -/
def Scene.getEntitiesAt (s : Scene) (x y : ℚ) : List Entity :=
  s.entities.filter (fun e => e.active && (e.getBounds).containsPoint x y)

/-- Go `newCollisionPairKey`: order-independent key for a colliding pair. -/
def newCollisionPairKey (id1 id2 : ℕ) : ℕ × ℕ :=
  if id1 < id2 then (id1, id2) else (id2, id1)

/-- Insertion into the colliding-pair set (Go: `m[key] = true` on a
map). -/
def insertKey (k : ℕ × ℕ) (m : List (ℕ × ℕ)) : List (ℕ × ℕ) :=
  if k ∈ m then m else m ++ [k]

/-- Inner loop of `physics.DetectCollisions` (entities after `a` in the
slice): skip inactive entities and entities without colliders, test
`colliderA.Intersects(colliderB, ...)`, collect colliding pairs in
order. -/
def collideInner (ca : Collider) (a : Entity) : List Entity → List (Entity × Entity)
  | [] => []
  | b :: rest =>
    match b.collider with
    | some cb =>
      if b.active && ca.intersects cb a.transform b.transform then
        (a, b) :: collideInner ca a rest
      else
        collideInner ca a rest
    | none => collideInner ca a rest

/-- Go `physics.DetectCollisions` (collision source file): O(n²) broad
phase over all ordered index pairs i < j, skipping inactive entities and
entities without colliders. -/
def DetectCollisions : List Entity → List (Entity × Entity)
  | [] => []
  | a :: rest =>
    match a.collider with
    | some ca =>
      (if a.active then collideInner ca a rest else []) ++ DetectCollisions rest
    | none => DetectCollisions rest

/-- Whether two entities collide this tick: both active, both with
colliders, and the colliders intersect. This is the predicate the broad
phase realises for a pair of distinct entities. -/
def collides (a b : Entity) : Bool :=
  a.active && b.active &&
    (match a.collider, b.collider with
     | some ca, some cb => ca.intersects cb a.transform b.transform
     | _, _ => false)

/-- Events emitted for a newly-colliding pair (scene.go lines 480-488):
each entity's `OnCollisionEnter`, if non-nil, receives (self, other). -/
def enterEvents (a b : Entity) : List CollisionEvent :=
  (if a.hasOnEnter then [CollisionEvent.enter a.id b.id] else []) ++
  (if b.hasOnEnter then [CollisionEvent.enter b.id a.id] else [])

/-- Events emitted for a continuing pair (scene.go lines 472-479). -/
def stayEvents (a b : Entity) : List CollisionEvent :=
  (if a.hasOnStay then [CollisionEvent.stay a.id b.id] else []) ++
  (if b.hasOnStay then [CollisionEvent.stay b.id a.id] else [])

/-- Events emitted for an ended pair (scene.go lines 504-512). -/
def exitEvents (a b : Entity) : List CollisionEvent :=
  (if a.hasOnExit then [CollisionEvent.exit a.id b.id] else []) ++
  (if b.hasOnExit then [CollisionEvent.exit b.id a.id] else [])

/-- The per-collision loop of `Scene.detectCollisions` (scene.go lines
462-489): record each pair's key in this tick's set and emit stay events
if the key was present last tick, enter events otherwise. Returns the
accumulated current-pair set and the emitted events. -/
def processCollisions (prev : List (ℕ × ℕ)) :
    List (Entity × Entity) → List (ℕ × ℕ) → List (ℕ × ℕ) × List CollisionEvent
  | [], current => (current, [])
  | (a, b) :: rest, current =>
    let k := newCollisionPairKey a.id b.id
    let evs := if k ∈ prev then stayEvents a b else enterEvents a b
    let r := processCollisions prev rest (insertKey k current)
    (r.1, evs ++ r.2)

/-- The entity lookup in the exit loop (scene.go lines 495-502): one pass
over the collection assigning `entityA`/`entityB` when the id matches
(later matches overwrite earlier ones, as in the Go loop). -/
def findPairStep (k : ℕ × ℕ) (acc : Option Entity × Option Entity) (e : Entity) :
    Option Entity × Option Entity :=
  if e.id = k.1 then (some e, acc.2)
  else if e.id = k.2 then (acc.1, some e)
  else acc

def findPairEntities (k : ℕ × ℕ) (entities : List Entity) : Option Entity × Option Entity :=
  List.foldl (findPairStep k) (none, none) entities

/-- The exit loop of `Scene.detectCollisions` (scene.go lines 492-514):
for every previous-tick key absent from this tick's set, look both
entities up and emit exit events only if both still exist. (Go iterates
the map in unspecified order; the model uses the stored key order — the
claims are order-independent.) -/
def processExits (entities : List Entity) (current : List (ℕ × ℕ)) :
    List (ℕ × ℕ) → List CollisionEvent
  | [] => []
  | k :: rest =>
    (if k ∈ current then []
     else
       match findPairEntities k entities with
       | (some a, some b) => exitEvents a b
       | _ => []) ++ processExits entities current rest

/-- Go `Scene.detectCollisions` (scene.go lines 449-518): run the broad
phase, classify pairs against the previous tick's set, emit events, and
store this tick's set. The collision callbacks' own side effects are not
modelled (they cannot structurally change the collection; removal they
request is already covered by the deferred queue model at the behavior
phase, which is what the claims quantify over). -/
def Scene.detectCollisions (s : Scene) : Scene × List CollisionEvent :=
  let collisions := DetectCollisions s.entities
  let r := processCollisions s.previousCollisions collisions []
  let evs2 := processExits s.entities r.1 s.previousCollisions
  ({ s with previousCollisions := r.1 }, r.2 ++ evs2)

/-- Sequential id assignment for the entities a behavior adds during the
update pass: each `AddEntity` call assigns the current `nextEntityID` and
increments it. Returns the entities with ids assigned and the new
counter. -/
def assignIds : List Entity → ℕ → List Entity × ℕ
  | [], nid => ([], nid)
  | e :: rest, nid =>
    let r := assignIds rest (nid + 1)
    ({ e with id := nid } :: r.1, r.2)

/-- Result of the behavior phase of `Scene.Update`: the snapshot entities
after their behaviors ran, the id counter, the removal queue, and the
entities appended during the pass. -/
structure PhaseResult where
  entities : List Entity
  nextId : ℕ
  removeQueue : List ℕ
  added : List Entity

/-- The behavior loop of `Scene.Update` (scene.go lines 434-439): iterate
the snapshot of the collection taken at loop entry (Go ranges over the
slice value, so entities appended during the loop are not iterated); for
every active entity invoke its behavior (`Entity.Update`), keep its
mutated state, queue its `RemoveEntity` calls and append its `AddEntity`
calls (assigning ids on the spot). -/
def runBehaviors (B : ℕ → Option Behavior) (dt : ℚ) :
    List Entity → ℕ → List ℕ → List Entity → PhaseResult
  | [], nid, rq, added => ⟨[], nid, rq, added⟩
  | e :: rest, nid, rq, added =>
    if e.active then
      match B e.id with
      | some b =>
        let r := b e dt
        let na := assignIds r.additions nid
        let pr := runBehaviors B dt rest na.2 (rq ++ r.removals) (added ++ na.1)
        ⟨r.entity :: pr.entities, pr.nextId, pr.removeQueue, pr.added⟩
      | none =>
        let pr := runBehaviors B dt rest nid rq added
        ⟨e :: pr.entities, pr.nextId, pr.removeQueue, pr.added⟩
    else
      let pr := runBehaviors B dt rest nid rq added
      ⟨e :: pr.entities, pr.nextId, pr.removeQueue, pr.added⟩

/-- The scene state after the behavior phase of `Scene.Update`: mutated
snapshot entities followed by the entities appended during the pass (Go
appends to the same slice). -/
def Scene.afterBehaviors (s : Scene) (B : ℕ → Option Behavior) (dt : ℚ) : Scene :=
  let pr := runBehaviors B dt s.entities s.nextEntityID s.entitiesToRemove []
  { entities := pr.entities ++ pr.added
    nextEntityID := pr.nextId
    entitiesToRemove := pr.removeQueue
    previousCollisions := s.previousCollisions }

/-- Go `Scene.Update` (scene.go lines 433-446): run every active entity's
behavior over the entry snapshot, then collision detection and event
dispatch on the post-behavior collection, then apply the deferred
removals. Returns the new scene and the emitted collision events. -/
def Scene.update (s : Scene) (B : ℕ → Option Behavior) (dt : ℚ) : Scene × List CollisionEvent :=
  let s1 := s.afterBehaviors B dt
  let r := s1.detectCollisions
  (r.1.processDeferredRemovals, r.2)

/-- Specification-side description of the entities the behavior phase
appends: the additions emitted by each active entity's behavior, in
snapshot order, before id assignment. Used to state that added entities
are appended exactly as emitted (their own behavior is not invoked in the
tick they are added). -/
def emittedAdditions (B : ℕ → Option Behavior) (dt : ℚ) : List Entity → List Entity
  | [] => []
  | e :: rest =>
    (if e.active then
       match B e.id with
       | some b => (b e dt).additions
       | none => []
     else []) ++ emittedAdditions B dt rest

/-- One external operation on a scene, for the identifier-monotonicity
claim: an `AddEntity` call, a `RemoveEntity` call, or an `Update` call
(whose behaviors may themselves add and remove entities). -/
inductive SceneOp where
  | add (e : Entity)
  | remove (i : ℕ)
  | update (B : ℕ → Option Behavior) (dt : ℚ)

/-- Apply one operation; return the new scene and the identifiers handed
out by the `AddEntity` calls the operation performed (for `update`, the
ids assigned to entities added by behaviors, in order). -/
def applyOp (s : Scene) : SceneOp → Scene × List ℕ
  | SceneOp.add e =>
    let r := s.addEntity e
    (r.1, [r.2])
  | SceneOp.remove i => (s.removeEntity i, [])
  | SceneOp.update B dt =>
    let pr := runBehaviors B dt s.entities s.nextEntityID s.entitiesToRemove []
    ((s.update B dt).1, pr.added.map (fun e => e.id))

/-- Apply a sequence of operations, collecting all identifiers handed
out, in order. -/
def applyOps : Scene → List SceneOp → Scene × List ℕ
  | s, [] => (s, [])
  | s, op :: rest =>
    let r := applyOp s op
    let rr := applyOps r.1 rest
    (rr.1, r.2 ++ rr.2)

/-- A transform at the origin with unit scale. -/
def tfOrigin : Transform :=
  { position := { x := 0, y := 0 }, rotation := 0, scale := { x := 1, y := 1 } }

/-- A transform at (1, 0) with unit scale. -/
def tfNear : Transform :=
  { position := { x := 1, y := 0 }, rotation := 0, scale := { x := 1, y := 1 } }

/-- Concrete entity: id 1, active, 10x10 collider at the origin, with an
enter handler. -/
def entA : Entity :=
  { id := 1, active := true, transform := tfOrigin,
    collider := some (NewCollider 10 10),
    hasOnEnter := true, hasOnStay := false, hasOnExit := false }

/-- Concrete entity: id 2, active, 10x10 collider at (1,0) (overlapping
`entA`), with an enter handler. -/
def entB : Entity :=
  { id := 2, active := true, transform := tfNear,
    collider := some (NewCollider 10 10),
    hasOnEnter := true, hasOnStay := false, hasOnExit := false }

/-- A behavior that removes its own entity from the scene. -/
def behRemoveSelf : Behavior :=
  fun e _ => { entity := e, removals := [e.id], additions := [] }

/-- Concrete scene for the deferred-removal scenario: `entA` (which will
remove itself) overlapping `entB`. -/
def scnRemoval : Scene :=
  { entities := [entA, entB], nextEntityID := 3, entitiesToRemove := [],
    previousCollisions := [] }

/-- Behavior map attaching `behRemoveSelf` to entity 1. -/
def mapRemoveSelf : ℕ → Option Behavior :=
  fun i => if i = 1 then some behRemoveSelf else none

/-- Concrete inactive, collider-less entity used as an addition payload
(its id is assigned by the scene at append time). -/
def entPlain : Entity :=
  { id := 0, active := false, transform := tfOrigin, collider := none,
    hasOnEnter := false, hasOnStay := false, hasOnExit := false }

/-- A behavior that adds one plain entity to the scene. -/
def behAddPlain : Behavior :=
  fun e _ => { entity := e, removals := [], additions := [entPlain] }

/-- Concrete scene for the unknown-id removal scenario: a single active
entity (id 1, no collider) whose behavior adds a fresh entity. -/
def scnAdder : Scene :=
  { entities :=
      [{ id := 1, active := true, transform := tfOrigin, collider := none,
         hasOnEnter := false, hasOnStay := false, hasOnExit := false }],
    nextEntityID := 2, entitiesToRemove := [], previousCollisions := [] }

/-- Behavior map attaching `behAddPlain` to entity 1. -/
def mapAddPlain : ℕ → Option Behavior :=
  fun i => if i = 1 then some behAddPlain else none

/-- The overlapping active entity added mid-tick in the C10 scenario
(id assigned at append time). -/
def entOverlapAdd : Entity :=
  { id := 0, active := true, transform := tfNear,
    collider := some (NewCollider 10 10),
    hasOnEnter := true, hasOnStay := false, hasOnExit := false }

/-- A behavior that adds `entOverlapAdd` to the scene. -/
def behAddOverlap : Behavior :=
  fun e _ => { entity := e, removals := [], additions := [entOverlapAdd] }

/-- Concrete scene for the added-mid-tick scenario: `entA` alone; its
behavior adds an overlapping collidable entity. -/
def scnMidAdd : Scene :=
  { entities := [entA], nextEntityID := 2, entitiesToRemove := [],
    previousCollisions := [] }

/-- Behavior map attaching `behAddOverlap` to entity 1. -/
def mapAddOverlap : ℕ → Option Behavior :=
  fun i => if i = 1 then some behAddOverlap else none

/-- Concrete collider-less active entity at (5,5), for the point-query
scenario. -/
def entAtFive : Entity :=
  { id := 1, active := true,
    transform := { position := { x := 5, y := 5 }, rotation := 0, scale := { x := 1, y := 1 } },
    collider := none,
    hasOnEnter := false, hasOnStay := false, hasOnExit := false }

/-- Concrete scene containing only `entAtFive`. -/
def scnAtFive : Scene :=
  { entities := [entAtFive], nextEntityID := 2, entitiesToRemove := [],
    previousCollisions := [] }

/-- The empty behavior map (no entity has a behavior). -/
def mapNone : ℕ → Option Behavior :=
  fun _ => none

/-- Concrete scene with an id gap: one entity with id 1 and
`nextEntityID` 3, as after an earlier removal of entity 2. -/
def scnGap : Scene :=
  { entities :=
      [{ id := 1, active := true, transform := tfOrigin, collider := none,
         hasOnEnter := false, hasOnStay := false, hasOnExit := false }],
    nextEntityID := 3, entitiesToRemove := [], previousCollisions := [] }

theorem Rectangle.intersects_iff (r other : Rectangle) :
    r.intersects other = true ↔
      r.x < other.x + other.width ∧ r.x + r.width > other.x ∧
      r.y < other.y + other.height ∧ r.y + r.height > other.y := by
  simp [Rectangle.intersects, and_assoc]

theorem rectangle_intersects_comm (r other : Rectangle) :
    r.intersects other = other.intersects r := by
  simp only [Rectangle.intersects, Bool.and_assoc]
  by_cases h1 : r.x < other.x + other.width <;>
  by_cases h2 : r.x + r.width > other.x <;>
  by_cases h3 : r.y < other.y + other.height <;>
  by_cases h4 : r.y + r.height > other.y <;>
  simp [h1, h2, h3, h4, gt_iff_lt]

theorem collider_intersects_comm (c other : Collider) (t1 t2 : Transform) :
    c.intersects other t1 t2 = other.intersects c t2 t1 := by
  simp only [Collider.intersects]
  by_cases h : Nat.land c.collisionMask (layerBit other.collisionLayer) = 0 ∨
      Nat.land other.collisionMask (layerBit c.collisionLayer) = 0
  · rw [if_pos h, if_pos (Or.symm h)]
  · rw [if_neg h, if_neg (fun hc => h (Or.symm hc))]
    exact rectangle_intersects_comm _ _



theorem tickLoop_spec (dt : ℚ) (acc : ℚ) (hdt : 0 < dt) (hacc : 0 ≤ acc) :
    (tickLoop dt acc).1 = (⌊acc / dt⌋).toNat ∧
    (tickLoop dt acc).2 = acc - (⌊acc / dt⌋).toNat * dt := by
  induction acc using tickLoop.induct dt with
  | case1 acc h ih =>
    rw [tickLoop, dif_pos h]
    obtain ⟨h0, hle⟩ := h
    have hd : (acc - dt) / dt = acc / dt - 1 := by field_simp
    have hfl : ⌊acc / dt⌋ = ⌊(acc - dt) / dt⌋ + 1 := by
      rw [hd, Int.floor_sub_one]; ring
    have hnn : (0 : ℤ) ≤ ⌊(acc - dt) / dt⌋ :=
      Int.floor_nonneg.mpr (div_nonneg (by linarith) (le_of_lt h0))
    obtain ⟨ih1, ih2⟩ := ih (by linarith)
    constructor
    · simp only [ih1, hfl]; omega
    · simp only [ih2, hfl]
      have hcast : (((⌊(acc - dt) / dt⌋ + 1).toNat : ℤ) : ℚ)
          = ((((⌊(acc - dt) / dt⌋).toNat : ℤ) : ℚ)) + 1 := by
        rw [Int.toNat_of_nonneg (by omega), Int.toNat_of_nonneg hnn]
        push_cast
        ring
      push_cast at hcast ⊢
      rw [hcast]
      ring
  | case2 acc h =>
    rw [tickLoop, dif_neg h]
    have hlt : acc < dt := by
      by_contra hc
      exact h ⟨hdt, le_of_not_lt hc⟩
    have hz : ⌊acc / dt⌋ = 0 := by
      rw [Int.floor_eq_zero_iff]
      constructor
      · exact div_nonneg hacc (le_of_lt hdt)
      · rw [div_lt_one hdt]
        exact hlt
    simp [hz]

theorem tickLoop_bounds (dt acc : ℚ) (hdt : 0 < dt) (hacc : 0 ≤ acc) :
    0 ≤ (tickLoop dt acc).2 ∧ (tickLoop dt acc).2 < dt ∧
    (tickLoop dt acc).2 + ((tickLoop dt acc).1 : ℚ) * dt = acc := by
  obtain ⟨h1, h2⟩ := tickLoop_spec dt acc hdt hacc
  have hnn : (0 : ℤ) ≤ ⌊acc / dt⌋ := Int.floor_nonneg.mpr (div_nonneg hacc hdt.le)
  have hc : ((⌊acc / dt⌋.toNat : ℚ)) = ((⌊acc / dt⌋ : ℤ) : ℚ) := by
    exact_mod_cast Int.toNat_of_nonneg hnn
  rw [h1, h2, hc]
  refine ⟨?_, ?_, by ring⟩
  · exact Int.sub_floor_div_mul_nonneg acc hdt
  · exact Int.sub_floor_div_mul_lt acc hdt

theorem tick_invariant (t : Time) (now : ℚ) (hdt : 0 < t.dt)
    (hcap : 0 ≤ t.maxFrameTime) (hacc : 0 ≤ t.accumulator) (hnow : t.lastTime ≤ now) :
    0 ≤ (t.tick now).1.accumulator ∧ (t.tick now).1.accumulator < t.dt ∧
    (t.tick now).1.accumulator + ((t.tick now).2.1 : ℚ) * (t.tick now).2.2
      = t.accumulator + t.clampedElapsed now ∧
    (t.tick now).1.dt = t.dt ∧ (t.tick now).1.maxFrameTime = t.maxFrameTime ∧
    (t.tick now).1.lastTime = now := by
  have he : 0 ≤ t.clampedElapsed now := by
    unfold Time.clampedElapsed
    split
    · exact hcap
    · linarith
  have hk1 : (t.tick now).1.accumulator
      = (tickLoop t.dt (t.accumulator + t.clampedElapsed now)).2 := rfl
  have hk2 : (t.tick now).2.1
      = (tickLoop t.dt (t.accumulator + t.clampedElapsed now)).1 := rfl
  have hk3 : (t.tick now).2.2 = t.dt := rfl
  obtain ⟨b1, b2, b3⟩ := tickLoop_bounds t.dt (t.accumulator + t.clampedElapsed now) hdt
    (by linarith)
  refine ⟨by rw [hk1]; exact b1, by rw [hk1]; exact b2, ?_, rfl, rfl, rfl⟩
  rw [hk1, hk2, hk3]
  linarith

theorem runTicks_invariant (t : Time) (nows : List ℚ) (hdt : 0 < t.dt)
    (hcap : 0 ≤ t.maxFrameTime) (hacc0 : 0 ≤ t.accumulator) (hacc1 : t.accumulator < t.dt)
    (hchain : List.Chain (· ≤ ·) t.lastTime nows) :
    0 ≤ (t.runTicks nows).1.accumulator ∧
    (t.runTicks nows).1.accumulator < t.dt ∧
    (t.runTicks nows).2.1 + (t.runTicks nows).1.accumulator
      = t.accumulator + (t.runTicks nows).2.2 := by
  induction nows generalizing t with
  | nil =>
    refine ⟨hacc0, hacc1, ?_⟩
    simp [Time.runTicks]
  | cons now rest ih =>
    rw [List.chain_cons] at hchain
    obtain ⟨hnow, hchain2⟩ := hchain
    obtain ⟨hi0, hi1, hi2, hidt, hicap, hilast⟩ := tick_invariant t now hdt hcap hacc0 hnow
    have ihh := ih (t.tick now).1 (by rw [hidt]; exact hdt) (by rw [hicap]; exact hcap)
      hi0 (by rw [hidt]; exact hi1) (by rw [hilast]; exact hchain2)
    rw [hidt] at ihh
    obtain ⟨j0, j1, j2⟩ := ihh
    have hr1 : (t.runTicks (now :: rest)).1 = ((t.tick now).1.runTicks rest).1 := rfl
    have hr2 : (t.runTicks (now :: rest)).2.1
        = ((t.tick now).2.1 : ℚ) * (t.tick now).2.2 + ((t.tick now).1.runTicks rest).2.1 := rfl
    have hr3 : (t.runTicks (now :: rest)).2.2
        = t.clampedElapsed now + ((t.tick now).1.runTicks rest).2.2 := rfl
    rw [hr1, hr2, hr3]
    refine ⟨j0, j1, ?_⟩
    linarith



/-- C3: for any sequence of Tick calls with monotonically non-decreasing
wall-clock samples (starting from a fresh accumulator of 0, positive fixed
dt and a non-negative frame-time cap), after every call the accumulator is
non-negative and strictly less than the fixed dt, and the running sum of
updateCount * dt never exceeds the running sum of clamped elapsed time,
differing from it by exactly the accumulator. Quantifying over all sample
lists covers every prefix of a longer run, hence the invariant holds at
every point. -/
theorem time_tick_accounting_C3 (t0 : Time) (nows : List ℚ)
    (hdt : 0 < t0.dt) (hcap : 0 ≤ t0.maxFrameTime) (hacc : t0.accumulator = 0)
    (hchain : List.Chain (· ≤ ·) t0.lastTime nows) :
    0 ≤ (t0.runTicks nows).1.accumulator ∧
    (t0.runTicks nows).1.accumulator < t0.dt ∧
    (t0.runTicks nows).2.1 + (t0.runTicks nows).1.accumulator = (t0.runTicks nows).2.2 ∧
    (t0.runTicks nows).2.1 ≤ (t0.runTicks nows).2.2 := by
  obtain ⟨a, b, c⟩ := runTicks_invariant t0 nows hdt hcap (by rw [hacc]) (by rw [hacc]; exact hdt)
    hchain
  rw [hacc] at c
  exact ⟨a, b, by linarith, by linarith⟩

/-- Witness for C3: a fresh 60 FPS scheduler ticked at wall-clock samples
1/30 s and 1/10 s satisfies the accumulator accounting invariant. -/
theorem time_tick_accounting_C3_witness :
    0 < (NewTime 0).dt ∧ (NewTime 0).accumulator = 0 ∧
    ((NewTime 0).runTicks [1 / 30, 1 / 10]).2.1
        + ((NewTime 0).runTicks [1 / 30, 1 / 10]).1.accumulator
      = ((NewTime 0).runTicks [1 / 30, 1 / 10]).2.2 :=
  ⟨by norm_num [NewTime], rfl,
    (time_tick_accounting_C3 (NewTime 0) [1 / 30, 1 / 10] (by norm_num [NewTime])
      (by norm_num [NewTime]) rfl
      (by refine List.Chain.cons (by norm_num [NewTime]) ?_
          exact List.Chain.cons (by norm_num) List.Chain.nil)).2.2.1⟩

/-- C4: a single Tick call starting with accumulator 0, dt = 1/60 and
frame-time cap 0.25 s, whose elapsed wall time exceeds the cap, yields
updateCount = 15 = floor(0.25 / dt) regardless of how large the elapsed
time is. -/
theorem time_stall_clamp_C4 (t : Time) (now : ℚ)
    (hacc : t.accumulator = 0) (hdt : t.dt = 1 / 60)
    (hcap : t.maxFrameTime = 1 / 4) (hlong : now - t.lastTime > 1 / 4) :
    (t.tick now).2.1 = 15 ∧ ⌊(1 / 4 : ℚ) / (1 / 60)⌋ = 15 := by
  constructor
  · have h1 : (t.tick now).2.1 = (tickLoop t.dt (t.accumulator + t.clampedElapsed now)).1 := rfl
    have h2 : t.clampedElapsed now = 1 / 4 := by
      unfold Time.clampedElapsed
      rw [hcap, if_pos hlong]
    rw [h1, h2, hacc, hdt]
    have h3 := (tickLoop_spec (1 / 60) (0 + 1 / 4) (by norm_num) (by norm_num)).1
    rw [h3]
    norm_num
    decide
  · norm_num

/-- Witness for C4: a fresh scheduler created at time 0 and ticked at
wall-clock time 10 s (a 10-second stall) runs exactly 15 catch-up
updates, not 600. -/
theorem time_stall_clamp_C4_witness : ((NewTime 0).tick 10).2.1 = 15 :=
  (time_stall_clamp_C4 (NewTime 0) 10 rfl rfl rfl (by norm_num [NewTime])).1

/-- C5: Collider.Intersects is symmetric in its arguments; whenever the
mutual layer/mask check fails (one mask misses the other's layer bit) it
returns false regardless of geometry; and when both masks include the
other's layer bit and the world rectangles overlap it returns true. -/
theorem collider_intersects_symm_layer_C5 (A B : Collider) (tA tB : Transform) :
    A.intersects B tA tB = B.intersects A tB tA
    ∧ (Nat.land A.collisionMask (layerBit B.collisionLayer) = 0 ∨
       Nat.land B.collisionMask (layerBit A.collisionLayer) = 0 →
       A.intersects B tA tB = false)
    ∧ (Nat.land A.collisionMask (layerBit B.collisionLayer) ≠ 0 →
       Nat.land B.collisionMask (layerBit A.collisionLayer) ≠ 0 →
       (A.getWorldBounds tA).intersects (B.getWorldBounds tB) = true →
       A.intersects B tA tB = true) := by
  refine ⟨collider_intersects_comm A B tA tB, ?_, ?_⟩
  · intro h
    unfold Collider.intersects
    rw [if_pos h]
  · intro h1 h2 h3
    unfold Collider.intersects
    rw [if_neg (not_or.mpr ⟨h1, h2⟩)]
    exact h3

/-- Witness for C5: two default colliders (match-all masks, layer 0) at
overlapping positions intersect, and the mask-compatibility hypotheses
hold for them. -/
theorem collider_intersects_symm_layer_C5_witness :
    Nat.land (NewCollider 10 10).collisionMask (layerBit (NewCollider 10 10).collisionLayer) ≠ 0
    ∧ (NewCollider 10 10).intersects (NewCollider 10 10)
        { position := { x := 0, y := 0 }, rotation := 0, scale := { x := 1, y := 1 } }
        { position := { x := 1, y := 0 }, rotation := 0, scale := { x := 1, y := 1 } } = true :=
  ⟨by decide,
    (collider_intersects_symm_layer_C5 (NewCollider 10 10) (NewCollider 10 10)
        { position := { x := 0, y := 0 }, rotation := 0, scale := { x := 1, y := 1 } }
        { position := { x := 1, y := 0 }, rotation := 0, scale := { x := 1, y := 1 } }).2.2
      (by decide) (by decide)
      (by norm_num [NewCollider, Collider.getWorldBounds, Rectangle.intersects])⟩

/-- C6: for rectangles of positive width and height, the overlap test
returns true exactly when the open intervals spanned on each axis share a
common point (strict overlap on both axes); and two rectangles that share
exactly an edge (the right edge of one being the left edge of the other)
are reported as not intersecting. -/
theorem rectangle_strict_overlap_C6 (r other : Rectangle)
    (hrw : 0 < r.width) (hrh : 0 < r.height)
    (how : 0 < other.width) (hoh : 0 < other.height) :
    (r.intersects other = true ↔
      ((∃ px, (r.x < px ∧ px < r.x + r.width) ∧ (other.x < px ∧ px < other.x + other.width)) ∧
       (∃ py, (r.y < py ∧ py < r.y + r.height) ∧ (other.y < py ∧ py < other.y + other.height))))
    ∧ (r.x + r.width = other.x → r.intersects other = false) := by
  constructor
  · rw [Rectangle.intersects_iff]
    constructor
    · rintro ⟨h1, h2, h3, h4⟩
      constructor
      · refine ⟨(max r.x other.x + min (r.x + r.width) (other.x + other.width)) / 2, ?_⟩
        have hlt : max r.x other.x < min (r.x + r.width) (other.x + other.width) := by
          rw [max_lt_iff, lt_min_iff, lt_min_iff]
          exact ⟨⟨by linarith, h1⟩, ⟨by linarith [gt_iff_lt.mp h2], by linarith⟩⟩
        have ha := left_lt_add_div_two.mpr hlt
        have hb := add_div_two_lt_right.mpr hlt
        have hma := le_max_left r.x other.x
        have hmb := le_max_right r.x other.x
        have hna := min_le_left (r.x + r.width) (other.x + other.width)
        have hnb := min_le_right (r.x + r.width) (other.x + other.width)
        exact ⟨⟨by linarith, by linarith⟩, ⟨by linarith, by linarith⟩⟩
      · refine ⟨(max r.y other.y + min (r.y + r.height) (other.y + other.height)) / 2, ?_⟩
        have hlt : max r.y other.y < min (r.y + r.height) (other.y + other.height) := by
          rw [max_lt_iff, lt_min_iff, lt_min_iff]
          exact ⟨⟨by linarith, h3⟩, ⟨by linarith [gt_iff_lt.mp h4], by linarith⟩⟩
        have ha := left_lt_add_div_two.mpr hlt
        have hb := add_div_two_lt_right.mpr hlt
        have hma := le_max_left r.y other.y
        have hmb := le_max_right r.y other.y
        have hna := min_le_left (r.y + r.height) (other.y + other.height)
        have hnb := min_le_right (r.y + r.height) (other.y + other.height)
        exact ⟨⟨by linarith, by linarith⟩, ⟨by linarith, by linarith⟩⟩
    · rintro ⟨⟨px, ⟨hp1, hp2⟩, ⟨hp3, hp4⟩⟩, ⟨py, ⟨hq1, hq2⟩, ⟨hq3, hq4⟩⟩⟩
      exact ⟨by linarith, by linarith, by linarith, by linarith⟩
  · intro h
    have hfalse : decide (r.x + r.width > other.x) = false := by
      simp [h]
    simp [Rectangle.intersects, hfalse]


/-- Witness for C6: the rectangles spanning x in [0,100] and x in
[100,200] with the same y-range have positive extents and are reported as
not intersecting (edge contact only). -/
theorem rectangle_strict_overlap_C6_witness :
    (0 : ℚ) < 100 ∧
    Rectangle.intersects { x := 0, y := 0, width := 100, height := 100 }
      { x := 100, y := 0, width := 100, height := 100 } = false :=
  ⟨by norm_num,
    (rectangle_strict_overlap_C6 { x := 0, y := 0, width := 100, height := 100 }
      { x := 100, y := 0, width := 100, height := 100 }
      (by norm_num) (by norm_num) (by norm_num) (by norm_num)).2 (by norm_num)⟩

theorem Entity.getBounds_none (e : Entity) (h : e.collider = none) :
    e.getBounds.containsPoint x y = true ↔
      x = e.transform.position.x ∧ y = e.transform.position.y := by
  unfold Entity.getBounds
  rw [h]
  simp only [Rectangle.containsPoint, Bool.and_eq_true, decide_eq_true_eq]
  constructor
  · rintro ⟨⟨⟨h1, h2⟩, h3⟩, h4⟩
    rw [add_zero] at h2 h4
    exact ⟨le_antisymm h2 h1, le_antisymm h4 h3⟩
  · rintro ⟨rfl, rfl⟩
    norm_num

/-- C7 (corrected): GetEntitiesAt returns exactly the active entities
whose world bounds contain the point inclusively. For an entity with a
collider the bounds are the collider's world rectangle; for an entity
without a collider the bounds degenerate to the zero-size rectangle at
the entity position, so such an entity is returned exactly when the query
point coincides with its position (the original claim that collider-less
entities are never returned fails there). Inactive entities are never
returned; when nothing matches the result is the empty list. -/
theorem scene_point_query_C7 (s : Scene) (x y : ℚ) (e : Entity) :
    e ∈ s.getEntitiesAt x y ↔
      e ∈ s.entities ∧ e.active = true ∧
      ((∃ c, e.collider = some c ∧ (c.getWorldBounds e.transform).containsPoint x y = true) ∨
       (e.collider = none ∧ x = e.transform.position.x ∧ y = e.transform.position.y)) := by
  unfold Scene.getEntitiesAt
  rw [List.mem_filter]
  constructor
  · rintro ⟨hmem, hcond⟩
    rw [Bool.and_eq_true] at hcond
    obtain ⟨hact, hbounds⟩ := hcond
    refine ⟨hmem, hact, ?_⟩
    cases hc : e.collider with
    | some c =>
      left
      refine ⟨c, rfl, ?_⟩
      have : e.getBounds = c.getWorldBounds e.transform := by
        unfold Entity.getBounds
        rw [hc]
      rw [this] at hbounds
      exact hbounds
    | none =>
      right
      exact ⟨rfl, (Entity.getBounds_none e hc).mp hbounds⟩
  · rintro ⟨hmem, hact, hcase⟩
    refine ⟨hmem, ?_⟩
    rw [Bool.and_eq_true]
    refine ⟨hact, ?_⟩
    rcases hcase with ⟨c, hc, hcont⟩ | ⟨hc, hx, hy⟩
    · have : e.getBounds = c.getWorldBounds e.transform := by
        unfold Entity.getBounds
        rw [hc]
      rw [this]
      exact hcont
    · exact (Entity.getBounds_none e hc).mpr ⟨hx, hy⟩

/-- Counterexample for C7 as stated: an active entity without a collider
positioned at (5,5) is returned by GetEntitiesAt (5,5) — the claim that
entities without a collider are never returned fails on the code. -/
theorem scene_point_query_C7_cex :
    entAtFive.collider = none ∧
    entAtFive ∈ scnAtFive.getEntitiesAt 5 5 ∧
    (scnAtFive.getEntitiesAt 5 5).length = 1 := by
  have hev : scnAtFive.getEntitiesAt 5 5 = [entAtFive] := by
    norm_num [Scene.getEntitiesAt, scnAtFive, entAtFive, Entity.getBounds,
      Rectangle.containsPoint, List.filter]
  refine ⟨rfl, ?_, ?_⟩
  · rw [hev]
    exact List.mem_singleton.mpr rfl
  · rw [hev]
    rfl

theorem assignIds_ids (l : List Entity) : ∀ nid : ℕ,
    (assignIds l nid).1.map (fun e => e.id) = List.range' nid l.length ∧
    (assignIds l nid).2 = nid + l.length := by
  induction l with
  | nil => intro nid; simp [assignIds]
  | cons e rest ih =>
    intro nid
    obtain ⟨ih1, ih2⟩ := ih (nid + 1)
    constructor
    · simp only [assignIds, List.map_cons, ih1, List.length_cons]
      rw [List.range'_succ]
    · simp only [assignIds, ih2, List.length_cons]
      omega

theorem runBehaviors_ids (B : ℕ → Option Behavior) (dt : ℚ) :
    ∀ (ents : List Entity) (nid : ℕ) (rq : List ℕ) (added : List Entity),
    (runBehaviors B dt ents nid rq added).added.map (fun e => e.id)
      = added.map (fun e => e.id)
        ++ List.range' nid ((runBehaviors B dt ents nid rq added).nextId - nid) ∧
    nid ≤ (runBehaviors B dt ents nid rq added).nextId := by
  intro ents
  induction ents with
  | nil =>
    intro nid rq added
    simp [runBehaviors]
  | cons e rest ih =>
    intro nid rq added
    by_cases hact : e.active
    · cases hb : B e.id with
      | some b =>
        simp only [runBehaviors, hact, hb, if_true]
        obtain ⟨ha1, ha2⟩ := assignIds_ids (b e dt).additions nid
        obtain ⟨ih1, ih2⟩ :=
          ih (assignIds (b e dt).additions nid).2 (rq ++ (b e dt).removals)
            (added ++ (assignIds (b e dt).additions nid).1)
        rw [ha2] at ih2
        constructor
        · rw [ih1, List.map_append, ha1, List.append_assoc, ha2]
          congr 1
          rw [List.range'_append_1]
          congr 1
          omega
        · rw [ha2]
          omega
      | none =>
        simp only [runBehaviors, hact, hb, if_true]
        exact ih nid rq added
    · simp only [runBehaviors, hact, if_false, Bool.false_eq_true]
      exact ih nid rq added

theorem processDeferredRemovals_nextId (s : Scene) :
    s.processDeferredRemovals.nextEntityID = s.nextEntityID := by
  unfold Scene.processDeferredRemovals
  split <;> rfl

theorem processDeferredRemovals_queue (s : Scene) :
    s.processDeferredRemovals.entitiesToRemove = [] := by
  unfold Scene.processDeferredRemovals
  split
  · assumption
  · rfl

theorem processDeferredRemovals_prev (s : Scene) :
    s.processDeferredRemovals.previousCollisions = s.previousCollisions := by
  unfold Scene.processDeferredRemovals
  split <;> rfl

theorem processDeferredRemovals_entities (s : Scene) :
    s.processDeferredRemovals.entities
      = s.entities.filter (fun e => decide (e.id ∉ s.entitiesToRemove)) := by
  unfold Scene.processDeferredRemovals
  split
  · rename_i h
    rw [h]
    refine (List.filter_eq_self.mpr ?_).symm
    intro e _
    simp
  · rfl

theorem applyOp_ids (s : Scene) (op : SceneOp) :
    (applyOp s op).2
      = List.range' s.nextEntityID ((applyOp s op).1.nextEntityID - s.nextEntityID) ∧
    s.nextEntityID ≤ (applyOp s op).1.nextEntityID := by
  cases op with
  | add e =>
    simp [applyOp, Scene.addEntity]
  | remove i =>
    simp [applyOp, Scene.removeEntity]
  | update B dt =>
    have hnext : (s.update B dt).1.nextEntityID
        = (runBehaviors B dt s.entities s.nextEntityID s.entitiesToRemove []).nextId := by
      show (((s.afterBehaviors B dt).detectCollisions).1.processDeferredRemovals).nextEntityID = _
      rw [processDeferredRemovals_nextId]
      rfl
    obtain ⟨h1, h2⟩ := runBehaviors_ids B dt s.entities s.nextEntityID s.entitiesToRemove []
    have hop1 : (applyOp s (SceneOp.update B dt)).2
        = (runBehaviors B dt s.entities s.nextEntityID s.entitiesToRemove []).added.map
            (fun e => e.id) := rfl
    have hop2 : (applyOp s (SceneOp.update B dt)).1 = (s.update B dt).1 := rfl
    rw [hop1, hop2, hnext, h1]
    refine ⟨?_, h2⟩
    simp

theorem applyOps_ids (ops : List SceneOp) : ∀ s : Scene,
    (applyOps s ops).2
      = List.range' s.nextEntityID ((applyOps s ops).1.nextEntityID - s.nextEntityID) ∧
    s.nextEntityID ≤ (applyOps s ops).1.nextEntityID := by
  induction ops with
  | nil =>
    intro s
    simp [applyOps]
  | cons op rest ih =>
    intro s
    obtain ⟨h1, h2⟩ := applyOp_ids s op
    obtain ⟨h3, h4⟩ := ih (applyOp s op).1
    have hu1 : (applyOps s (op :: rest)).2 = (applyOp s op).2 ++ (applyOps (applyOp s op).1 rest).2 := rfl
    have hu2 : (applyOps s (op :: rest)).1 = (applyOps (applyOp s op).1 rest).1 := rfl
    rw [hu1, hu2, h1, h3]
    constructor
    · have hmid : (applyOp s op).1.nextEntityID
          = s.nextEntityID + ((applyOp s op).1.nextEntityID - s.nextEntityID) := by omega
      rw [hmid]
      simp only [Nat.add_sub_cancel_left]
      rw [List.range'_append_1]
      congr 1
      omega
    · omega

/-- C8: for any sequence of operations on one scene — AddEntity calls
interleaved arbitrarily with RemoveEntity calls and Update calls (whose
behaviors may themselves add and remove entities) — the identifiers
returned by the AddEntity calls, starting from a fresh scene, are exactly
the consecutive integers from 1: a strictly increasing sequence starting
at 1 in which no identifier is ever assigned twice. -/
theorem scene_id_monotonic_C8 (ops : List SceneOp) :
    (applyOps NewScene ops).2 = List.range' 1 (applyOps NewScene ops).2.length ∧
    List.Chain' (fun a b => a < b) (applyOps NewScene ops).2 ∧
    (applyOps NewScene ops).2.Nodup := by
  obtain ⟨h1, _⟩ := applyOps_ids ops NewScene
  have hN : NewScene.nextEntityID = 1 := rfl
  rw [hN] at h1
  refine ⟨?_, ?_, ?_⟩
  · rw [h1, List.length_range']
  · rw [h1]
    exact (List.pairwise_lt_range' 1 _).chain'
  · rw [h1]
    exact List.nodup_range' 1 _

theorem runBehaviors_rq (B : ℕ → Option Behavior) (dt : ℚ) :
    ∀ (ents : List Entity) (nid : ℕ) (added : List Entity) (rq : List ℕ),
    runBehaviors B dt ents nid rq added
      = { entities := (runBehaviors B dt ents nid [] added).entities
          nextId := (runBehaviors B dt ents nid [] added).nextId
          removeQueue := rq ++ (runBehaviors B dt ents nid [] added).removeQueue
          added := (runBehaviors B dt ents nid [] added).added } := by
  intro ents
  induction ents with
  | nil =>
    intro nid added rq
    simp [runBehaviors]
  | cons e rest ih =>
    intro nid added rq
    by_cases hact : e.active
    · cases hb : B e.id with
      | some b =>
        simp only [runBehaviors, hact, hb, if_true]
        rw [ih (assignIds (b e dt).additions nid).2
              (added ++ (assignIds (b e dt).additions nid).1) (rq ++ (b e dt).removals),
            ih (assignIds (b e dt).additions nid).2
              (added ++ (assignIds (b e dt).additions nid).1) ([] ++ (b e dt).removals)]
        simp [List.append_assoc]
      | none =>
        simp only [runBehaviors, hact, hb, if_true]
        rw [ih nid added rq]
    · simp only [runBehaviors, hact, if_false, Bool.false_eq_true]
      rw [ih nid added rq]

theorem runBehaviors_map_id (B : ℕ → Option Behavior) (dt : ℚ)
    (hB : ∀ (e : Entity) (d : ℚ) (b : Behavior), B e.id = some b → ((b e d).entity).id = e.id) :
    ∀ (ents : List Entity) (nid : ℕ) (rq : List ℕ) (added : List Entity),
    (runBehaviors B dt ents nid rq added).entities.map (fun e => e.id)
      = ents.map (fun e => e.id) := by
  intro ents
  induction ents with
  | nil =>
    intro nid rq added
    simp [runBehaviors]
  | cons e rest ih =>
    intro nid rq added
    by_cases hact : e.active
    · cases hb : B e.id with
      | some b =>
        simp only [runBehaviors, hact, hb, if_true, List.map_cons]
        rw [ih, hB e dt b hb]
      | none =>
        simp only [runBehaviors, hact, hb, if_true, List.map_cons]
        rw [ih]
    · simp only [runBehaviors, hact, if_false, Bool.false_eq_true, List.map_cons]
      rw [ih]

theorem detectCollisions_entities (s : Scene) : (s.detectCollisions).1.entities = s.entities :=
  rfl

theorem detectCollisions_nextId (s : Scene) :
    (s.detectCollisions).1.nextEntityID = s.nextEntityID :=
  rfl

theorem detectCollisions_rq (s : Scene) :
    (s.detectCollisions).1.entitiesToRemove = s.entitiesToRemove :=
  rfl

theorem newColliders_intersect :
    (NewCollider 10 10).intersects (NewCollider 10 10) tfOrigin tfNear = true := by
  unfold Collider.intersects
  rw [if_neg]
  · simp only [NewCollider, Collider.getWorldBounds, Rectangle.intersects, tfOrigin, tfNear,
      Bool.and_eq_true, decide_eq_true_eq]
    norm_num
  · decide

theorem detect_entA_entB : DetectCollisions [entA, entB] = [(entA, entB)] := by
  simp [DetectCollisions, collideInner, entA, entB, newColliders_intersect]

theorem scnRemoval_update_eval :
    scnRemoval.update mapRemoveSelf (1 / 60)
      = ({ entities := [entB], nextEntityID := 3, entitiesToRemove := [],
           previousCollisions := [(1, 2)] },
         [CollisionEvent.enter 1 2, CollisionEvent.enter 2 1]) := by
  have hab : scnRemoval.afterBehaviors mapRemoveSelf (1 / 60)
      = { entities := [entA, entB], nextEntityID := 3, entitiesToRemove := [1],
          previousCollisions := [] } := rfl
  show (((scnRemoval.afterBehaviors mapRemoveSelf (1 / 60)).detectCollisions).1.processDeferredRemovals,
        ((scnRemoval.afterBehaviors mapRemoveSelf (1 / 60)).detectCollisions).2) = _
  rw [hab]
  simp only [Scene.detectCollisions, detect_entA_entB]
  rfl

/-- C1: an entity whose ID is passed to RemoveEntity during the behavior
phase of an Update call remains in the live collection for the remainder
of that call — the post-behavior collection handed to collision detection
still contains every original entity id (queued removals cause no
structural change before the removal pass) — and after Update returns the
queued ids are absent from the collection and GetEntity returns none,
with the removal queue cleared before the next tick. The final conjuncts
exhibit this on a concrete scene: entity 1 removes itself during its
behavior, still receives an OnCollisionEnter callback in the same tick,
and is gone (GetEntity 1 = none) when Update returns. Behaviors are
assumed not to reassign their entity's id (`hB`), which Go code does not
do. -/
theorem scene_deferred_removal_C1 (s : Scene) (B : ℕ → Option Behavior) (dt : ℚ)
    (hB : ∀ (e : Entity) (d : ℚ) (b : Behavior), B e.id = some b → ((b e d).entity).id = e.id) :
    ((s.afterBehaviors B dt).entities.map (fun e => e.id)
      = s.entities.map (fun e => e.id)
        ++ (runBehaviors B dt s.entities s.nextEntityID s.entitiesToRemove []).added.map
            (fun e => e.id))
    ∧ (s.update B dt).1.entitiesToRemove = []
    ∧ (∀ i ∈ (runBehaviors B dt s.entities s.nextEntityID s.entitiesToRemove []).removeQueue,
        (s.update B dt).1.getEntity i = none ∧
        ∀ e ∈ (s.update B dt).1.entities, e.id ≠ i)
    ∧ (runBehaviors mapRemoveSelf (1 / 60) scnRemoval.entities scnRemoval.nextEntityID
        scnRemoval.entitiesToRemove []).removeQueue = [1]
    ∧ CollisionEvent.enter 1 2 ∈ (scnRemoval.update mapRemoveSelf (1 / 60)).2
    ∧ (scnRemoval.update mapRemoveSelf (1 / 60)).1.getEntity 1 = none
    ∧ (scnRemoval.update mapRemoveSelf (1 / 60)).1.getEntity 2 = some entB := by
  refine ⟨?_, ?_, ?_, rfl, ?_, ?_, ?_⟩
  · show ((runBehaviors B dt s.entities s.nextEntityID s.entitiesToRemove []).entities
        ++ (runBehaviors B dt s.entities s.nextEntityID s.entitiesToRemove []).added).map
          (fun e => e.id) = _
    rw [List.map_append, runBehaviors_map_id B dt hB]
  · show (((s.afterBehaviors B dt).detectCollisions).1.processDeferredRemovals).entitiesToRemove = []
    exact processDeferredRemovals_queue _
  · intro i hi
    have hq : ((s.afterBehaviors B dt).detectCollisions).1.entitiesToRemove
        = (runBehaviors B dt s.entities s.nextEntityID s.entitiesToRemove []).removeQueue := by
      rw [detectCollisions_rq]
      rfl
    have hent : (s.update B dt).1.entities
        = (((s.afterBehaviors B dt).detectCollisions).1.entities).filter
            (fun e => decide
              (e.id ∉ (runBehaviors B dt s.entities s.nextEntityID s.entitiesToRemove
                []).removeQueue)) := by
      show (((s.afterBehaviors B dt).detectCollisions).1.processDeferredRemovals).entities = _
      rw [processDeferredRemovals_entities, hq]
    have hne : ∀ e ∈ (s.update B dt).1.entities, e.id ≠ i := by
      intro e he
      rw [hent, List.mem_filter] at he
      have h2 := he.2
      simp only [decide_eq_true_eq] at h2
      intro heq
      exact h2 (heq ▸ hi)
    refine ⟨?_, hne⟩
    show ((s.update B dt).1.entities.find? (fun e => decide (e.id = i))) = none
    apply List.find?_eq_none.mpr
    intro e he
    simp only [decide_eq_true_eq]
    exact hne e he
  · rw [scnRemoval_update_eval]
    simp
  · rw [scnRemoval_update_eval]
    rfl
  · rw [scnRemoval_update_eval]
    rfl

/-- Witness for C1: the deferred-removal theorem instantiated on the
concrete scene in which entity 1 queues its own removal during its
behavior while overlapping entity 2. -/
theorem scene_deferred_removal_C1_witness :
    ((scnRemoval.afterBehaviors mapRemoveSelf (1 / 60)).entities.map (fun e => e.id)
      = scnRemoval.entities.map (fun e => e.id)
        ++ (runBehaviors mapRemoveSelf (1 / 60) scnRemoval.entities scnRemoval.nextEntityID
            scnRemoval.entitiesToRemove []).added.map (fun e => e.id))
    ∧ (scnRemoval.update mapRemoveSelf (1 / 60)).1.entitiesToRemove = []
    ∧ (∀ i ∈ (runBehaviors mapRemoveSelf (1 / 60) scnRemoval.entities scnRemoval.nextEntityID
        scnRemoval.entitiesToRemove []).removeQueue,
        (scnRemoval.update mapRemoveSelf (1 / 60)).1.getEntity i = none ∧
        ∀ e ∈ (scnRemoval.update mapRemoveSelf (1 / 60)).1.entities, e.id ≠ i) := by
  have h := scene_deferred_removal_C1 scnRemoval mapRemoveSelf (1 / 60)
    (by
      intro e d b hb
      unfold mapRemoveSelf at hb
      by_cases he : e.id = 1
      · rw [he] at hb
        simp at hb
        rw [← hb]
        rfl
      · simp [he] at hb)
  exact ⟨h.1, h.2.1, h.2.2.1⟩

theorem pdr_congr (sa sb : Scene)
    (hent : sa.entities = sb.entities) (hnid : sa.nextEntityID = sb.nextEntityID)
    (hprev : sa.previousCollisions = sb.previousCollisions)
    (hq : ∀ e ∈ sa.entities, (e.id ∈ sa.entitiesToRemove ↔ e.id ∈ sb.entitiesToRemove)) :
    sa.processDeferredRemovals = sb.processDeferredRemovals := by
  ext1
  · rw [processDeferredRemovals_entities, processDeferredRemovals_entities, hent]
    apply List.filter_congr
    intro e he
    have hiff := hq e (by rw [hent]; exact he)
    simp only [decide_eq_decide]
    exact not_congr hiff
  · rw [processDeferredRemovals_nextId, processDeferredRemovals_nextId, hnid]
  · rw [processDeferredRemovals_queue, processDeferredRemovals_queue]
  · rw [processDeferredRemovals_prev, processDeferredRemovals_prev, hprev]

theorem update_congr (s1 s2 : Scene) (B : ℕ → Option Behavior) (dt : ℚ)
    (hent : s1.entities = s2.entities) (hnid : s1.nextEntityID = s2.nextEntityID)
    (hprev : s1.previousCollisions = s2.previousCollisions)
    (hq : ∀ e ∈ (runBehaviors B dt s1.entities s1.nextEntityID [] []).entities
            ++ (runBehaviors B dt s1.entities s1.nextEntityID [] []).added,
          (e.id ∈ s1.entitiesToRemove ↔ e.id ∈ s2.entitiesToRemove)) :
    s1.update B dt = s2.update B dt := by
  have hab1 : s1.afterBehaviors B dt
      = { entities := (runBehaviors B dt s1.entities s1.nextEntityID [] []).entities
            ++ (runBehaviors B dt s1.entities s1.nextEntityID [] []).added
          nextEntityID := (runBehaviors B dt s1.entities s1.nextEntityID [] []).nextId
          entitiesToRemove := s1.entitiesToRemove
            ++ (runBehaviors B dt s1.entities s1.nextEntityID [] []).removeQueue
          previousCollisions := s1.previousCollisions } := by
    unfold Scene.afterBehaviors
    rw [runBehaviors_rq B dt s1.entities s1.nextEntityID [] s1.entitiesToRemove]
  have hab2 : s2.afterBehaviors B dt
      = { entities := (runBehaviors B dt s1.entities s1.nextEntityID [] []).entities
            ++ (runBehaviors B dt s1.entities s1.nextEntityID [] []).added
          nextEntityID := (runBehaviors B dt s1.entities s1.nextEntityID [] []).nextId
          entitiesToRemove := s2.entitiesToRemove
            ++ (runBehaviors B dt s1.entities s1.nextEntityID [] []).removeQueue
          previousCollisions := s1.previousCollisions } := by
    unfold Scene.afterBehaviors
    rw [runBehaviors_rq B dt s2.entities s2.nextEntityID [] s2.entitiesToRemove]
    rw [← hent, ← hnid, ← hprev]
  have hdc : ∀ sc : Scene, sc.detectCollisions
      = ({ sc with previousCollisions :=
            (processCollisions sc.previousCollisions (DetectCollisions sc.entities) []).1 },
         (processCollisions sc.previousCollisions (DetectCollisions sc.entities) []).2
           ++ processExits sc.entities
                (processCollisions sc.previousCollisions (DetectCollisions sc.entities) []).1
                sc.previousCollisions) :=
    fun sc => rfl
  show (((s1.afterBehaviors B dt).detectCollisions).1.processDeferredRemovals,
        ((s1.afterBehaviors B dt).detectCollisions).2)
      = (((s2.afterBehaviors B dt).detectCollisions).1.processDeferredRemovals,
         ((s2.afterBehaviors B dt).detectCollisions).2)
  rw [hab1, hab2, hdc, hdc]
  refine Prod.ext ?_ rfl
  apply pdr_congr
  · rfl
  · rfl
  · rfl
  · intro e he
    simp only [List.mem_append]
    rw [hq e he]

/-- Counterexample for C9 as stated: removing an id not present in the
scene is not always equivalent to not calling RemoveEntity at all. Id 2
is unknown to the scene, but the queued removal deletes the entity that a
behavior adds during the next Update (which is assigned id 2), whereas
without the RemoveEntity call that entity survives. -/
theorem scene_remove_unknown_C9_cex :
    (∀ e ∈ scnAdder.entities, e.id ≠ 2)
    ∧ ((scnAdder.removeEntity 2).update mapAddPlain (1 / 60)).1.getEntity 2 = none
    ∧ (scnAdder.update mapAddPlain (1 / 60)).1.getEntity 2 = some { entPlain with id := 2 } := by
  refine ⟨?_, rfl, rfl⟩
  intro e he
  simp only [scnAdder, List.mem_singleton] at he
  rw [he]
  decide

/-- C9 (corrected): RemoveEntity never fails and causes no immediate
structural change (entities, id counter and pair history untouched);
queueing the same id twice leaves the scene in exactly the same state
after the next Update as queueing it once; and removing an id that no
live entity has is a no-op across the next Update provided the id is
below the scene's id counter (so that no entity added during that Update
can be assigned it — the unrestricted claim fails, see the
counterexample). Behaviors are assumed not to reassign entity ids. -/
theorem scene_remove_idempotent_C9 (s : Scene) (B : ℕ → Option Behavior) (dt : ℚ) (i : ℕ)
    (hB : ∀ (e : Entity) (d : ℚ) (b : Behavior), B e.id = some b → ((b e d).entity).id = e.id) :
    (s.removeEntity i).entities = s.entities
    ∧ (s.removeEntity i).nextEntityID = s.nextEntityID
    ∧ (s.removeEntity i).previousCollisions = s.previousCollisions
    ∧ ((s.removeEntity i).removeEntity i).update B dt = (s.removeEntity i).update B dt
    ∧ ((∀ e ∈ s.entities, e.id ≠ i) → i < s.nextEntityID →
        (s.removeEntity i).update B dt = s.update B dt) := by
  refine ⟨rfl, rfl, rfl, ?_, ?_⟩
  · refine update_congr _ _ B dt rfl rfl rfl ?_
    intro e _
    simp only [Scene.removeEntity, List.mem_append, List.mem_singleton]
    tauto
  · intro hno hlt
    refine update_congr _ _ B dt rfl rfl rfl ?_
    intro e he
    simp only [Scene.removeEntity] at he ⊢
    have hne : e.id ≠ i := by
      rcases List.mem_append.mp he with h | h
      · have hmap := runBehaviors_map_id B dt hB s.entities s.nextEntityID [] []
        have hm : e.id ∈ (runBehaviors B dt s.entities s.nextEntityID [] []).entities.map
            (fun e => e.id) := List.mem_map_of_mem _ h
        rw [hmap] at hm
        obtain ⟨e', he', heq⟩ := List.mem_map.mp hm
        intro hcon
        exact hno e' he' (by rw [heq, hcon])
      · obtain ⟨h1, _⟩ := runBehaviors_ids B dt s.entities s.nextEntityID [] []
        have hm : e.id ∈ (runBehaviors B dt s.entities s.nextEntityID [] []).added.map
            (fun e => e.id) := List.mem_map_of_mem _ h
        rw [h1] at hm
        simp only [List.map_nil, List.nil_append] at hm
        rw [List.mem_range'] at hm
        obtain ⟨k, _, hk⟩ := hm
        omega
    simp [List.mem_append, hne]

/-- Witness for C9: on the concrete gap scene (one entity with id 1,
counter at 3) removing the unknown id 2 twice, once, or not at all all
lead to the same state after the next Update, and the RemoveEntity call
changes no structure immediately. -/
theorem scene_remove_idempotent_C9_witness :
    ((scnGap.removeEntity 2).removeEntity 2).update mapNone 1
      = (scnGap.removeEntity 2).update mapNone 1
    ∧ (scnGap.removeEntity 2).update mapNone 1 = scnGap.update mapNone 1
    ∧ (scnGap.removeEntity 2).entities = scnGap.entities := by
  have h := scene_remove_idempotent_C9 scnGap mapNone 1 2
    (by intro e d b hb; simp [mapNone] at hb)
  refine ⟨h.2.2.2.1, h.2.2.2.2 ?_ ?_, h.1⟩
  · intro e he
    simp only [scnGap, List.mem_singleton] at he
    rw [he]
    decide
  · decide

theorem assignIds_append (l1 l2 : List Entity) : ∀ nid : ℕ,
    assignIds (l1 ++ l2) nid
      = ((assignIds l1 nid).1 ++ (assignIds l2 (nid + l1.length)).1,
         (assignIds l2 (nid + l1.length)).2) := by
  induction l1 with
  | nil =>
    intro nid
    simp [assignIds]
  | cons e rest ih =>
    intro nid
    have harith : nid + (rest.length + 1) = nid + 1 + rest.length := by omega
    simp only [List.cons_append, assignIds, List.length_cons, harith, List.append_eq]
    rw [ih (nid + 1)]

theorem runBehaviors_added (B : ℕ → Option Behavior) (dt : ℚ) :
    ∀ (ents : List Entity) (nid : ℕ) (rq : List ℕ) (added : List Entity),
    (runBehaviors B dt ents nid rq added).added
      = added ++ (assignIds (emittedAdditions B dt ents) nid).1 := by
  intro ents
  induction ents with
  | nil =>
    intro nid rq added
    simp [runBehaviors, emittedAdditions, assignIds]
  | cons e rest ih =>
    intro nid rq added
    by_cases hact : e.active
    · cases hb : B e.id with
      | some b =>
        simp only [runBehaviors, hact, hb, if_true, emittedAdditions]
        rw [ih]
        rw [assignIds_append]
        rw [(assignIds_ids (b e dt).additions nid).2]
        rw [List.append_assoc]
      | none =>
        simp only [runBehaviors, hact, hb, if_true, emittedAdditions]
        rw [ih]
        simp [assignIds]
    · simp only [runBehaviors, hact, if_false, Bool.false_eq_true, emittedAdditions]
      rw [ih]
      simp [assignIds]

/-- C10: entities added to the scene from a behavior during an Update
call do not have their own behavior invoked during that call — they are
appended exactly as emitted, with only their id assigned sequentially
(first conjunct) — but they are part of the post-behavior collection on
which that same call runs collision detection (second and third
conjuncts). The final conjuncts exhibit the consequence on a concrete
scene: an entity added mid-tick (assigned id 2) overlaps entity 1 and
receives an OnCollisionEnter callback in the very tick it was added. -/
theorem scene_added_mid_tick_C10 (s : Scene) (B : ℕ → Option Behavior) (dt : ℚ) :
    ((runBehaviors B dt s.entities s.nextEntityID s.entitiesToRemove []).added
      = (assignIds (emittedAdditions B dt s.entities) s.nextEntityID).1)
    ∧ ((s.afterBehaviors B dt).entities
      = (runBehaviors B dt s.entities s.nextEntityID s.entitiesToRemove []).entities
        ++ (runBehaviors B dt s.entities s.nextEntityID s.entitiesToRemove []).added)
    ∧ ((s.update B dt).2 = ((s.afterBehaviors B dt).detectCollisions).2)
    ∧ CollisionEvent.enter 2 1 ∈ (scnMidAdd.update mapAddOverlap (1 / 60)).2
    ∧ scnMidAdd.entities.map (fun e => e.id) = [1] := by
  refine ⟨?_, rfl, rfl, ?_, rfl⟩
  · rw [runBehaviors_added]
    simp
  · have hab : scnMidAdd.afterBehaviors mapAddOverlap (1 / 60)
        = { entities := [entA, entB], nextEntityID := 3, entitiesToRemove := [],
            previousCollisions := [] } := rfl
    show CollisionEvent.enter 2 1
        ∈ ((scnMidAdd.afterBehaviors mapAddOverlap (1 / 60)).detectCollisions).2
    rw [hab]
    simp only [Scene.detectCollisions, detect_entA_entB]
    decide

theorem pairKey_eq_iff (i j a b : ℕ) :
    newCollisionPairKey i j = newCollisionPairKey a b ↔
      ((i = a ∧ j = b) ∨ (i = b ∧ j = a)) := by
  unfold newCollisionPairKey
  split <;> split <;> simp [Prod.ext_iff] <;> omega

theorem mem_insertKey (k k' : ℕ × ℕ) (m : List (ℕ × ℕ)) :
    k ∈ insertKey k' m ↔ k ∈ m ∨ k = k' := by
  unfold insertKey
  split
  · rename_i h
    constructor
    · exact fun hm => Or.inl hm
    · rintro (hm | rfl)
      · exact hm
      · exact h
  · simp [List.mem_append]

theorem processCollisions_events (prev : List (ℕ × ℕ)) :
    ∀ (cols : List (Entity × Entity)) (cur : List (ℕ × ℕ)),
    (processCollisions prev cols cur).2
      = cols.flatMap (fun p =>
          if newCollisionPairKey p.1.id p.2.id ∈ prev then stayEvents p.1 p.2
          else enterEvents p.1 p.2) := by
  intro cols
  induction cols with
  | nil =>
    intro cur
    simp [processCollisions]
  | cons p rest ih =>
    intro cur
    obtain ⟨a, b⟩ := p
    simp only [processCollisions, List.flatMap_cons]
    rw [ih]

theorem processCollisions_current (prev : List (ℕ × ℕ)) :
    ∀ (cols : List (Entity × Entity)) (cur : List (ℕ × ℕ)) (k : ℕ × ℕ),
    (k ∈ (processCollisions prev cols cur).1 ↔
      k ∈ cur ∨ ∃ p ∈ cols, newCollisionPairKey p.1.id p.2.id = k) := by
  intro cols
  induction cols with
  | nil =>
    intro cur k
    simp [processCollisions]
  | cons p rest ih =>
    intro cur k
    obtain ⟨a, b⟩ := p
    simp only [processCollisions]
    rw [ih]
    rw [mem_insertKey]
    constructor
    · rintro ((hm | rfl) | hex)
      · exact Or.inl hm
      · exact Or.inr ⟨(a, b), List.mem_cons_self _ _, rfl⟩
      · obtain ⟨p, hp, hk⟩ := hex
        exact Or.inr ⟨p, List.mem_cons_of_mem _ hp, hk⟩
    · rintro (hm | ⟨p, hp, hk⟩)
      · exact Or.inl (Or.inl hm)
      · rcases List.mem_cons.mp hp with rfl | hp'
        · exact Or.inl (Or.inr hk.symm)
        · exact Or.inr ⟨p, hp', hk⟩

theorem collides_eq_of_colliders (a b : Entity) (ca cb : Collider)
    (ha : a.collider = some ca) (hb : b.collider = some cb) :
    collides a b = (a.active && b.active && ca.intersects cb a.transform b.transform) := by
  unfold collides
  rw [ha, hb]

theorem collides_false_of_none_left (a b : Entity) (ha : a.collider = none) :
    collides a b = false := by
  unfold collides
  rw [ha]
  cases hb : b.collider <;> simp

theorem collides_false_of_none_right (a b : Entity) (hb : b.collider = none) :
    collides a b = false := by
  unfold collides
  rw [hb]
  cases ha : a.collider <;> simp

theorem collides_comm (a b : Entity) : collides a b = collides b a := by
  cases ha : a.collider with
  | none =>
    rw [collides_false_of_none_left a b ha, collides_false_of_none_right b a ha]
  | some ca =>
    cases hb : b.collider with
    | none => rw [collides_false_of_none_right a b hb, collides_false_of_none_left b a hb]
    | some cb =>
      rw [collides_eq_of_colliders a b ca cb ha hb, collides_eq_of_colliders b a cb ca hb ha,
        collider_intersects_comm]
      cases a.active <;> cases b.active <;> simp

theorem collideInner_sound (ca : Collider) (a : Entity)
    (ha : a.collider = some ca) (hact : a.active = true) :
    ∀ (rest : List Entity) (p : Entity × Entity), p ∈ collideInner ca a rest →
      p.1 = a ∧ p.2 ∈ rest ∧ collides a p.2 = true := by
  intro rest
  induction rest with
  | nil =>
    intro p hp
    simp [collideInner] at hp
  | cons b r ih =>
    intro p hp
    cases hb : b.collider with
    | some cb =>
      simp only [collideInner, hb] at hp
      by_cases hcond : (b.active && ca.intersects cb a.transform b.transform) = true
      · rw [if_pos hcond] at hp
        rcases List.mem_cons.mp hp with rfl | hp'
        · rw [Bool.and_eq_true] at hcond
          refine ⟨rfl, List.mem_cons_self _ _, ?_⟩
          rw [collides_eq_of_colliders a b ca cb ha hb, hact, hcond.1, hcond.2]
          rfl
        · obtain ⟨h1, h2, h3⟩ := ih p hp'
          exact ⟨h1, List.mem_cons_of_mem _ h2, h3⟩
      · rw [if_neg hcond] at hp
        obtain ⟨h1, h2, h3⟩ := ih p hp
        exact ⟨h1, List.mem_cons_of_mem _ h2, h3⟩
    | none =>
      simp only [collideInner, hb] at hp
      obtain ⟨h1, h2, h3⟩ := ih p hp
      exact ⟨h1, List.mem_cons_of_mem _ h2, h3⟩

theorem detect_sound : ∀ (ents : List Entity) (p : Entity × Entity),
    p ∈ DetectCollisions ents →
    p.1 ∈ ents ∧ p.2 ∈ ents ∧ collides p.1 p.2 = true := by
  intro ents
  induction ents with
  | nil =>
    intro p hp
    simp [DetectCollisions] at hp
  | cons a rest ih =>
    intro p hp
    cases ha : a.collider with
    | some ca =>
      simp only [DetectCollisions, ha] at hp
      rcases List.mem_append.mp hp with hp1 | hp2
      · by_cases hact : a.active = true
        · rw [if_pos hact] at hp1
          obtain ⟨h1, h2, h3⟩ := collideInner_sound ca a ha hact rest p hp1
          exact ⟨h1 ▸ List.mem_cons_self a rest, List.mem_cons_of_mem _ h2, h1 ▸ h3⟩
        · rw [if_neg hact] at hp1
          simp at hp1
      · obtain ⟨h1, h2, h3⟩ := ih p hp2
        exact ⟨List.mem_cons_of_mem _ h1, List.mem_cons_of_mem _ h2, h3⟩
    | none =>
      simp only [DetectCollisions, ha] at hp
      obtain ⟨h1, h2, h3⟩ := ih p hp
      exact ⟨List.mem_cons_of_mem _ h1, List.mem_cons_of_mem _ h2, h3⟩

theorem collideInner_complete (ca : Collider) (a : Entity) :
    ∀ (rest : List Entity) (b : Entity), b ∈ rest →
      ∀ cb, b.collider = some cb → b.active = true →
      ca.intersects cb a.transform b.transform = true →
      (a, b) ∈ collideInner ca a rest := by
  intro rest
  induction rest with
  | nil =>
    intro b hb
    simp at hb
  | cons x r ih =>
    intro b hb cb hcb hbact hint
    rcases List.mem_cons.mp hb with rfl | hb'
    · simp only [collideInner, hcb]
      rw [if_pos (by rw [hbact, hint]; rfl)]
      exact List.mem_cons_self _ _
    · cases hx : x.collider with
      | some cx =>
        simp only [collideInner, hx]
        split
        · exact List.mem_cons_of_mem _ (ih b hb' cb hcb hbact hint)
        · exact ih b hb' cb hcb hbact hint
      | none =>
        simp only [collideInner, hx]
        exact ih b hb' cb hcb hbact hint

theorem detect_complete : ∀ (l1 : List Entity) (a : Entity) (l2 : List Entity) (b : Entity),
    b ∈ l2 → collides a b = true → (a, b) ∈ DetectCollisions (l1 ++ a :: l2) := by
  intro l1
  induction l1 with
  | nil =>
    intro a l2 b hb hcol
    cases ha : a.collider with
    | none => rw [collides_false_of_none_left a b ha] at hcol; exact absurd hcol (by simp)
    | some ca =>
      cases hb2 : b.collider with
      | none => rw [collides_false_of_none_right a b hb2] at hcol; exact absurd hcol (by simp)
      | some cb =>
        rw [collides_eq_of_colliders a b ca cb ha hb2] at hcol
        simp only [Bool.and_eq_true] at hcol
        obtain ⟨⟨hact, hbact⟩, hint⟩ := hcol
        show (a, b) ∈ DetectCollisions (a :: l2)
        simp only [DetectCollisions, ha]
        apply List.mem_append_left
        rw [if_pos hact]
        exact collideInner_complete ca a l2 b hb cb hb2 hbact hint
  | cons x l1' ih =>
    intro a l2 b hb hcol
    show (a, b) ∈ DetectCollisions (x :: (l1' ++ a :: l2))
    cases hx : x.collider with
    | some cx =>
      simp only [DetectCollisions, hx]
      exact List.mem_append_right _ (ih a l2 b hb hcol)
    | none =>
      simp only [DetectCollisions, hx]
      exact ih a l2 b hb hcol

theorem mem_split_pair (l : List Entity) (a b : Entity)
    (ha : a ∈ l) (hb : b ∈ l) (hne : a ≠ b) :
    (∃ l1 l2, l = l1 ++ a :: l2 ∧ b ∈ l2) ∨ (∃ l1 l2, l = l1 ++ b :: l2 ∧ a ∈ l2) := by
  induction l with
  | nil => simp at ha
  | cons x rest ih =>
    by_cases hxa : x = a
    · left
      refine ⟨[], rest, by rw [hxa]; rfl, ?_⟩
      rcases List.mem_cons.mp hb with rfl | hb'
      · exact absurd hxa.symm hne
      · exact hb'
    · by_cases hxb : x = b
      · right
        refine ⟨[], rest, by rw [hxb]; rfl, ?_⟩
        rcases List.mem_cons.mp ha with rfl | ha'
        · exact absurd hxb.symm (fun h => hne h.symm)
        · exact ha'
      · have ha' : a ∈ rest := by
          rcases List.mem_cons.mp ha with rfl | h
          · exact absurd rfl hxa
          · exact h
        have hb' : b ∈ rest := by
          rcases List.mem_cons.mp hb with rfl | h
          · exact absurd rfl hxb
          · exact h
        rcases ih ha' hb' with ⟨l1, l2, heq, hm⟩ | ⟨l1, l2, heq, hm⟩
        · exact Or.inl ⟨x :: l1, l2, by rw [heq]; rfl, hm⟩
        · exact Or.inr ⟨x :: l1, l2, by rw [heq]; rfl, hm⟩

theorem entity_eq_of_id {l : List Entity} (hids : (l.map (fun e => e.id)).Nodup)
    {a b : Entity} (ha : a ∈ l) (hb : b ∈ l) (heq : a.id = b.id) : a = b :=
  List.inj_on_of_nodup_map hids ha hb heq

theorem collideInner_mem (ca : Collider) (a : Entity) :
    ∀ (rest : List Entity) (p : Entity × Entity), p ∈ collideInner ca a rest →
      p.1 = a ∧ p.2 ∈ rest := by
  intro rest
  induction rest with
  | nil =>
    intro p hp
    simp [collideInner] at hp
  | cons b r ih =>
    intro p hp
    cases hb : b.collider with
    | some cb =>
      simp only [collideInner, hb] at hp
      split at hp
      · rcases List.mem_cons.mp hp with rfl | hp'
        · exact ⟨rfl, List.mem_cons_self _ _⟩
        · obtain ⟨h1, h2⟩ := ih p hp'
          exact ⟨h1, List.mem_cons_of_mem _ h2⟩
      · obtain ⟨h1, h2⟩ := ih p hp
        exact ⟨h1, List.mem_cons_of_mem _ h2⟩
    | none =>
      simp only [collideInner, hb] at hp
      obtain ⟨h1, h2⟩ := ih p hp
      exact ⟨h1, List.mem_cons_of_mem _ h2⟩

theorem collideInner_keys_nodup (ca : Collider) (a : Entity) :
    ∀ (rest : List Entity),
      ((rest.map (fun e => e.id)).Nodup) → (a.id ∉ rest.map (fun e => e.id)) →
      (((collideInner ca a rest).map
        (fun p => newCollisionPairKey p.1.id p.2.id)).Nodup) := by
  intro rest
  induction rest with
  | nil =>
    intro _ _
    simp [collideInner]
  | cons b r ih =>
    intro hids hnotin
    rw [List.map_cons, List.nodup_cons] at hids
    obtain ⟨hbid, hidsr⟩ := hids
    rw [List.map_cons, List.mem_cons] at hnotin
    push_neg at hnotin
    obtain ⟨hab, hanotr⟩ := hnotin
    cases hb : b.collider with
    | some cb =>
      simp only [collideInner, hb]
      split
      · rw [List.map_cons, List.nodup_cons]
        constructor
        · intro hmem
          obtain ⟨p, hp, hkey⟩ := List.mem_map.mp hmem
          obtain ⟨hp1, hp2⟩ := collideInner_mem ca a r p hp
          rw [hp1] at hkey
          rcases (pairKey_eq_iff _ _ _ _).mp hkey with ⟨_, hj⟩ | ⟨hi, _⟩
          · exact hbid (hj ▸ List.mem_map_of_mem (fun e => e.id) hp2)
          · exact hab hi
        · exact ih hidsr hanotr
      · exact ih hidsr hanotr
    | none =>
      simp only [collideInner, hb]
      exact ih hidsr hanotr

theorem detect_keys_nodup : ∀ (ents : List Entity),
    ((ents.map (fun e => e.id)).Nodup) →
    (((DetectCollisions ents).map (fun p => newCollisionPairKey p.1.id p.2.id)).Nodup) := by
  intro ents
  induction ents with
  | nil =>
    intro _
    simp [DetectCollisions]
  | cons a rest ih =>
    intro hids
    rw [List.map_cons, List.nodup_cons] at hids
    obtain ⟨haid, hidsr⟩ := hids
    cases ha : a.collider with
    | none =>
      simp only [DetectCollisions, ha]
      exact ih hidsr
    | some ca =>
      simp only [DetectCollisions, ha, List.map_append]
      apply List.Nodup.append
      · split
        · exact collideInner_keys_nodup ca a rest hidsr haid
        · simp
      · exact ih hidsr
      · intro k hk1 hk2
        have hk1' : ∃ p ∈ (if a.active = true then collideInner ca a rest else []),
            newCollisionPairKey p.1.id p.2.id = k := List.mem_map.mp hk1
        obtain ⟨p, hp, hkey1⟩ := hk1'
        have hpm : p ∈ collideInner ca a rest := by
          by_cases hact : a.active = true
          · rw [if_pos hact] at hp
            exact hp
          · rw [if_neg hact] at hp
            simp at hp
        obtain ⟨hp1, hp2⟩ := collideInner_mem ca a rest p hpm
        obtain ⟨q, hq, hkey2⟩ := List.mem_map.mp hk2
        obtain ⟨hq1, hq2, _⟩ := detect_sound rest q hq
        rw [hp1] at hkey1
        have hkeys : newCollisionPairKey a.id p.2.id
            = newCollisionPairKey q.1.id q.2.id := by rw [hkey1, hkey2]
        rcases (pairKey_eq_iff _ _ _ _).mp hkeys with ⟨hi, _⟩ | ⟨hi, _⟩
        · exact haid (hi ▸ List.mem_map_of_mem (fun e => e.id) hq1)
        · exact haid (hi ▸ List.mem_map_of_mem (fun e => e.id) hq2)

theorem fold_fst_preserved (k : ℕ × ℕ) :
    ∀ (l : List Entity) (acc : Option Entity × Option Entity),
      (∀ e ∈ l, e.id ≠ k.1) → (List.foldl (findPairStep k) acc l).1 = acc.1 := by
  intro l
  induction l with
  | nil =>
    intro acc _
    rfl
  | cons e rest ih =>
    intro acc h
    have he := h e (List.mem_cons_self _ _)
    rw [List.foldl_cons]
    rw [ih _ (fun x hx => h x (List.mem_cons_of_mem _ hx))]
    unfold findPairStep
    rw [if_neg he]
    split <;> rfl

theorem fold_snd_preserved (k : ℕ × ℕ) :
    ∀ (l : List Entity) (acc : Option Entity × Option Entity),
      (∀ e ∈ l, e.id ≠ k.2) → (List.foldl (findPairStep k) acc l).2 = acc.2 := by
  intro l
  induction l with
  | nil =>
    intro acc _
    rfl
  | cons e rest ih =>
    intro acc h
    have he := h e (List.mem_cons_self _ _)
    rw [List.foldl_cons]
    rw [ih _ (fun x hx => h x (List.mem_cons_of_mem _ hx))]
    unfold findPairStep
    by_cases h1 : e.id = k.1
    · rw [if_pos h1]
    · rw [if_neg h1, if_neg he]

theorem findPair_fst_none (k : ℕ × ℕ) (l : List Entity)
    (h : ∀ e ∈ l, e.id ≠ k.1) : (findPairEntities k l).1 = none :=
  fold_fst_preserved k l (none, none) h

theorem findPair_snd_none (k : ℕ × ℕ) (l : List Entity)
    (h : ∀ e ∈ l, e.id ≠ k.2) : (findPairEntities k l).2 = none :=
  fold_snd_preserved k l (none, none) h

theorem fold_fst_found (k : ℕ × ℕ) :
    ∀ (l : List Entity), ((l.map (fun e => e.id)).Nodup) →
      ∀ (x : Entity), x ∈ l → x.id = k.1 →
      ∀ acc : Option Entity × Option Entity,
        (List.foldl (findPairStep k) acc l).1 = some x := by
  intro l
  induction l with
  | nil =>
    intro _ x hx
    simp at hx
  | cons e rest ih =>
    intro hids x hx hxi acc
    rw [List.map_cons, List.nodup_cons] at hids
    obtain ⟨heid, hidsr⟩ := hids
    rw [List.foldl_cons]
    by_cases he : e.id = k.1
    · have hex : e = x := by
        rcases List.mem_cons.mp hx with rfl | hx'
        · rfl
        · exact absurd (he.trans hxi.symm ▸ List.mem_map_of_mem (fun e => e.id) hx') heid
      have hnone : ∀ e' ∈ rest, e'.id ≠ k.1 := by
        intro e' he' hcon
        exact heid (by rw [he, ← hcon]; exact List.mem_map_of_mem (fun e => e.id) he')
      rw [fold_fst_preserved k rest _ hnone]
      unfold findPairStep
      rw [if_pos he, hex]
    · have hx' : x ∈ rest := by
        rcases List.mem_cons.mp hx with rfl | hx'
        · exact absurd hxi he
        · exact hx'
      exact ih hidsr x hx' hxi _

theorem fold_snd_found (k : ℕ × ℕ) (hk : k.1 ≠ k.2) :
    ∀ (l : List Entity), ((l.map (fun e => e.id)).Nodup) →
      ∀ (y : Entity), y ∈ l → y.id = k.2 →
      ∀ acc : Option Entity × Option Entity,
        (List.foldl (findPairStep k) acc l).2 = some y := by
  intro l
  induction l with
  | nil =>
    intro _ y hy
    simp at hy
  | cons e rest ih =>
    intro hids y hy hyi acc
    rw [List.map_cons, List.nodup_cons] at hids
    obtain ⟨heid, hidsr⟩ := hids
    rw [List.foldl_cons]
    by_cases he : e.id = k.2
    · have hey : e = y := by
        rcases List.mem_cons.mp hy with rfl | hy'
        · rfl
        · exact absurd (he.trans hyi.symm ▸ List.mem_map_of_mem (fun e => e.id) hy') heid
      have hnone : ∀ e' ∈ rest, e'.id ≠ k.2 := by
        intro e' he' hcon
        exact heid (by rw [he, ← hcon]; exact List.mem_map_of_mem (fun e => e.id) he')
      rw [fold_snd_preserved k rest _ hnone]
      unfold findPairStep
      rw [if_neg (by rw [he]; exact fun hcon => hk hcon.symm), if_pos he, hey]
    · have hy' : y ∈ rest := by
        rcases List.mem_cons.mp hy with rfl | hy'
        · exact absurd hyi he
        · exact hy'
      exact ih hidsr y hy' hyi _

theorem findPair_found (k : ℕ × ℕ) (hk : k.1 ≠ k.2) (l : List Entity)
    (hids : (l.map (fun e => e.id)).Nodup) (x y : Entity)
    (hx : x ∈ l) (hxi : x.id = k.1) (hy : y ∈ l) (hyi : y.id = k.2) :
    findPairEntities k l = (some x, some y) := by
  unfold findPairEntities
  refine Prod.ext ?_ ?_
  · exact fold_fst_found k l hids x hx hxi _
  · exact fold_snd_found k hk l hids y hy hyi _

theorem fold_fst_id (k : ℕ × ℕ) :
    ∀ (l : List Entity) (acc : Option Entity × Option Entity),
      (∀ x, acc.1 = some x → x.id = k.1) →
      ∀ x, (List.foldl (findPairStep k) acc l).1 = some x → x.id = k.1 := by
  intro l
  induction l with
  | nil =>
    intro acc hacc x hx
    exact hacc x hx
  | cons e rest ih =>
    intro acc hacc x hx
    rw [List.foldl_cons] at hx
    refine ih _ ?_ x hx
    intro z hz
    unfold findPairStep at hz
    by_cases h1 : e.id = k.1
    · rw [if_pos h1] at hz
      cases hz
      exact h1
    · rw [if_neg h1] at hz
      by_cases h2 : e.id = k.2
      · rw [if_pos h2] at hz
        exact hacc z hz
      · rw [if_neg h2] at hz
        exact hacc z hz

theorem fold_snd_id (k : ℕ × ℕ) :
    ∀ (l : List Entity) (acc : Option Entity × Option Entity),
      (∀ y, acc.2 = some y → y.id = k.2) →
      ∀ y, (List.foldl (findPairStep k) acc l).2 = some y → y.id = k.2 := by
  intro l
  induction l with
  | nil =>
    intro acc hacc y hy
    exact hacc y hy
  | cons e rest ih =>
    intro acc hacc y hy
    rw [List.foldl_cons] at hy
    refine ih _ ?_ y hy
    intro z hz
    unfold findPairStep at hz
    by_cases h1 : e.id = k.1
    · rw [if_pos h1] at hz
      exact hacc z hz
    · rw [if_neg h1] at hz
      by_cases h2 : e.id = k.2
      · rw [if_pos h2] at hz
        cases hz
        exact h2
      · rw [if_neg h2] at hz
        exact hacc z hz

theorem findPair_ids (k : ℕ × ℕ) (l : List Entity) (x y : Entity)
    (h : findPairEntities k l = (some x, some y)) : x.id = k.1 ∧ y.id = k.2 := by
  unfold findPairEntities at h
  constructor
  · exact fold_fst_id k l (none, none) (by intro z hz; cases hz) x
      (by rw [h])
  · exact fold_snd_id k l (none, none) (by intro z hz; cases hz) y
      (by rw [h])

theorem count_flatMap {α : Type} (f : α → List CollisionEvent) (ev : CollisionEvent) :
    ∀ l : List α, ((l.flatMap f).count ev) = (l.map (fun x => (f x).count ev)).sum := by
  intro l
  induction l with
  | nil => rfl
  | cons x rest ih =>
    rw [List.flatMap_cons, List.count_append, List.map_cons, List.sum_cons, ih]

theorem processExits_count (entities : List Entity) (cur : List (ℕ × ℕ)) (ev : CollisionEvent) :
    ∀ ks : List (ℕ × ℕ),
    ((processExits entities cur ks).count ev)
      = (ks.map (fun k =>
          ((if k ∈ cur then ([] : List CollisionEvent)
            else
              match findPairEntities k entities with
              | (some a, some b) => exitEvents a b
              | _ => []).count ev))).sum := by
  intro ks
  induction ks with
  | nil => rfl
  | cons k rest ih =>
    simp only [processExits, List.count_append, List.map_cons, List.sum_cons, ih]

theorem sum_map_single {α : Type} [DecidableEq α] :
    ∀ (l : List α) (g : α → ℕ) (p0 : α), l.Nodup → p0 ∈ l →
      (∀ q ∈ l, q ≠ p0 → g q = 0) → (l.map g).sum = g p0 := by
  intro l
  induction l with
  | nil =>
    intro g p0 _ h
    simp at h
  | cons x rest ih =>
    intro g p0 hnd hmem hz
    rw [List.nodup_cons] at hnd
    rcases List.mem_cons.mp hmem with rfl | hmem'
    · have hzr : ∀ q ∈ rest, g q = 0 :=
        fun q hq => hz q (List.mem_cons_of_mem _ hq) (fun hqp => hnd.1 (hqp ▸ hq))
      rw [List.map_cons, List.sum_cons, List.sum_eq_zero]
      · omega
      · intro n hn
        obtain ⟨q, hq, hgq⟩ := List.mem_map.mp hn
        rw [← hgq]
        exact hzr q hq
    · have hx0 : g x = 0 := by
        refine hz x (List.mem_cons_self _ _) ?_
        intro hxp
        exact hnd.1 (hxp ▸ hmem')
      rw [List.map_cons, List.sum_cons, hx0,
        ih g p0 hnd.2 hmem' (fun q hq hqp => hz q (List.mem_cons_of_mem _ hq) hqp)]
      omega

theorem count_two_events (f1 f2 : Bool) (e1 e2 ev : CollisionEvent) :
    (((if f1 then [e1] else []) ++ (if f2 then [e2] else [])).count ev)
      = (if f1 = true ∧ ev = e1 then 1 else 0) + (if f2 = true ∧ ev = e2 then 1 else 0) := by
  have hc : ∀ (e x : CollisionEvent), ([e].count x) = if x = e then 1 else 0 := by
    intro e x
    by_cases h : x = e <;> simp [h, List.count_cons]
  cases f1 <;> cases f2 <;> by_cases h1 : ev = e1 <;> by_cases h2 : ev = e2 <;>
    by_cases h3 : e1 = e2 <;>
    simp [hc, List.count_append, List.count_cons, List.count_nil, h1, h2, h3] <;>
    simp_all

theorem pairKey_comm (i j : ℕ) : newCollisionPairKey i j = newCollisionPairKey j i := by
  unfold newCollisionPairKey
  split <;> split <;> simp [Prod.ext_iff] <;> omega

theorem pairKey_lt (i j : ℕ) (hij : i ≠ j) :
    (newCollisionPairKey i j).1 < (newCollisionPairKey i j).2 := by
  unfold newCollisionPairKey
  split <;> simp <;> omega

theorem pairKey_cases (i j : ℕ) :
    ((newCollisionPairKey i j).1 = i ∧ (newCollisionPairKey i j).2 = j) ∨
    ((newCollisionPairKey i j).1 = j ∧ (newCollisionPairKey i j).2 = i) := by
  unfold newCollisionPairKey
  split <;> simp

theorem count_enterEvents_self (a b : Entity) (hij : a.id ≠ b.id) :
    (enterEvents a b).count (CollisionEvent.enter a.id b.id) = if a.hasOnEnter then 1 else 0 := by
  unfold enterEvents
  rw [count_two_events]
  simp [hij, Ne.symm hij]

theorem count_enterEvents_swap (a b : Entity) (hij : a.id ≠ b.id) :
    (enterEvents a b).count (CollisionEvent.enter b.id a.id) = if b.hasOnEnter then 1 else 0 := by
  unfold enterEvents
  rw [count_two_events]
  simp [hij, Ne.symm hij]

theorem count_enterEvents_none (a b : Entity) (i j : ℕ)
    (h1 : ¬(i = a.id ∧ j = b.id)) (h2 : ¬(i = b.id ∧ j = a.id)) :
    (enterEvents a b).count (CollisionEvent.enter i j) = 0 := by
  unfold enterEvents
  rw [count_two_events]
  simp [h1, h2]

theorem count_enterEvents_stay (a b : Entity) (i j : ℕ) :
    (enterEvents a b).count (CollisionEvent.stay i j) = 0 := by
  unfold enterEvents
  rw [count_two_events]
  simp

theorem count_enterEvents_exit (a b : Entity) (i j : ℕ) :
    (enterEvents a b).count (CollisionEvent.exit i j) = 0 := by
  unfold enterEvents
  rw [count_two_events]
  simp

theorem count_stayEvents_self (a b : Entity) (hij : a.id ≠ b.id) :
    (stayEvents a b).count (CollisionEvent.stay a.id b.id) = if a.hasOnStay then 1 else 0 := by
  unfold stayEvents
  rw [count_two_events]
  simp [hij, Ne.symm hij]

theorem count_stayEvents_swap (a b : Entity) (hij : a.id ≠ b.id) :
    (stayEvents a b).count (CollisionEvent.stay b.id a.id) = if b.hasOnStay then 1 else 0 := by
  unfold stayEvents
  rw [count_two_events]
  simp [hij, Ne.symm hij]

theorem count_stayEvents_none (a b : Entity) (i j : ℕ)
    (h1 : ¬(i = a.id ∧ j = b.id)) (h2 : ¬(i = b.id ∧ j = a.id)) :
    (stayEvents a b).count (CollisionEvent.stay i j) = 0 := by
  unfold stayEvents
  rw [count_two_events]
  simp [h1, h2]

theorem count_stayEvents_enter (a b : Entity) (i j : ℕ) :
    (stayEvents a b).count (CollisionEvent.enter i j) = 0 := by
  unfold stayEvents
  rw [count_two_events]
  simp

theorem count_stayEvents_exit (a b : Entity) (i j : ℕ) :
    (stayEvents a b).count (CollisionEvent.exit i j) = 0 := by
  unfold stayEvents
  rw [count_two_events]
  simp

theorem count_exitEvents_self (a b : Entity) (hij : a.id ≠ b.id) :
    (exitEvents a b).count (CollisionEvent.exit a.id b.id) = if a.hasOnExit then 1 else 0 := by
  unfold exitEvents
  rw [count_two_events]
  simp [hij, Ne.symm hij]

theorem count_exitEvents_swap (a b : Entity) (hij : a.id ≠ b.id) :
    (exitEvents a b).count (CollisionEvent.exit b.id a.id) = if b.hasOnExit then 1 else 0 := by
  unfold exitEvents
  rw [count_two_events]
  simp [hij, Ne.symm hij]

theorem count_exitEvents_none (a b : Entity) (i j : ℕ)
    (h1 : ¬(i = a.id ∧ j = b.id)) (h2 : ¬(i = b.id ∧ j = a.id)) :
    (exitEvents a b).count (CollisionEvent.exit i j) = 0 := by
  unfold exitEvents
  rw [count_two_events]
  simp [h1, h2]

theorem count_exitEvents_enter (a b : Entity) (i j : ℕ) :
    (exitEvents a b).count (CollisionEvent.enter i j) = 0 := by
  unfold exitEvents
  rw [count_two_events]
  simp

theorem count_exitEvents_stay (a b : Entity) (i j : ℕ) :
    (exitEvents a b).count (CollisionEvent.stay i j) = 0 := by
  unfold exitEvents
  rw [count_two_events]
  simp

theorem pairEvents_count_exit (prev : List (ℕ × ℕ)) (q : Entity × Entity) (i j : ℕ) :
    ((if newCollisionPairKey q.1.id q.2.id ∈ prev then stayEvents q.1 q.2
      else enterEvents q.1 q.2).count (CollisionEvent.exit i j)) = 0 := by
  split
  · exact count_stayEvents_exit q.1 q.2 i j
  · exact count_enterEvents_exit q.1 q.2 i j

theorem pairEvents_count_enter_zero (prev : List (ℕ × ℕ)) (q : Entity × Entity) (i j : ℕ)
    (n1 : ¬(i = q.1.id ∧ j = q.2.id)) (n2 : ¬(i = q.2.id ∧ j = q.1.id)) :
    ((if newCollisionPairKey q.1.id q.2.id ∈ prev then stayEvents q.1 q.2
      else enterEvents q.1 q.2).count (CollisionEvent.enter i j)) = 0 := by
  split
  · exact count_stayEvents_enter q.1 q.2 i j
  · exact count_enterEvents_none q.1 q.2 i j n1 n2

theorem pairEvents_count_stay_zero (prev : List (ℕ × ℕ)) (q : Entity × Entity) (i j : ℕ)
    (n1 : ¬(i = q.1.id ∧ j = q.2.id)) (n2 : ¬(i = q.2.id ∧ j = q.1.id)) :
    ((if newCollisionPairKey q.1.id q.2.id ∈ prev then stayEvents q.1 q.2
      else enterEvents q.1 q.2).count (CollisionEvent.stay i j)) = 0 := by
  split
  · exact count_stayEvents_none q.1 q.2 i j n1 n2
  · exact count_enterEvents_stay q.1 q.2 i j

theorem exitContribution_count_zero (entities : List Entity) (cur : List (ℕ × ℕ))
    (k : ℕ × ℕ) (i j : ℕ)
    (hcase : k ∈ cur ∨ (¬(k.1 = i ∧ k.2 = j) ∧ ¬(k.2 = i ∧ k.1 = j))) :
    ((if k ∈ cur then ([] : List CollisionEvent)
      else
        match findPairEntities k entities with
        | (some a, some b) => exitEvents a b
        | _ => []).count (CollisionEvent.exit i j)) = 0 := by
  by_cases hk : k ∈ cur
  · simp [hk]
  · rw [if_neg hk]
    rcases hcase with h | ⟨h1, h2⟩
    · exact absurd h hk
    · rcases hfp : findPairEntities k entities with ⟨oa, ob⟩
      cases oa with
      | none => simp
      | some A =>
        cases ob with
        | none => simp
        | some B =>
          obtain ⟨hA, hB⟩ := findPair_ids k entities A B hfp
          apply count_exitEvents_none
          · rintro ⟨x1, x2⟩
            exact h1 ⟨by omega, by omega⟩
          · rintro ⟨x1, x2⟩
            exact h2 ⟨by omega, by omega⟩

theorem exitContribution_count_enter (entities : List Entity) (cur : List (ℕ × ℕ))
    (k : ℕ × ℕ) (i j : ℕ) :
    ((if k ∈ cur then ([] : List CollisionEvent)
      else
        match findPairEntities k entities with
        | (some a, some b) => exitEvents a b
        | _ => []).count (CollisionEvent.enter i j)) = 0 := by
  by_cases hk : k ∈ cur
  · simp [hk]
  · rw [if_neg hk]
    rcases hfp : findPairEntities k entities with ⟨oa, ob⟩
    cases oa with
    | none => simp
    | some A =>
      cases ob with
      | none => simp
      | some B => exact count_exitEvents_enter A B i j

theorem exitContribution_count_stay (entities : List Entity) (cur : List (ℕ × ℕ))
    (k : ℕ × ℕ) (i j : ℕ) :
    ((if k ∈ cur then ([] : List CollisionEvent)
      else
        match findPairEntities k entities with
        | (some a, some b) => exitEvents a b
        | _ => []).count (CollisionEvent.stay i j)) = 0 := by
  by_cases hk : k ∈ cur
  · simp [hk]
  · rw [if_neg hk]
    rcases hfp : findPairEntities k entities with ⟨oa, ob⟩
    cases oa with
    | none => simp
    | some A =>
      cases ob with
      | none => simp
      | some B => exact count_exitEvents_stay A B i j

/-- C2: for every tick and unordered pair of distinct entities in a
well-formed scene (distinct ids, duplicate-free and normalized pair
history), exactly one event class applies. A pair that overlaps this tick
and was absent from the previous tick's set produces exactly one enter
callback on each entity carrying a handler (each receiving the other);
one that overlaps and was present produces exactly one stay callback on
each; one that was present and no longer overlaps produces exactly one
exit callback on each, given both entities are still in the collection; a
pair absent from both produces nothing; and a pair whose entity was
removed produces no exit callback at all. Entities without the relevant
handler (nil callback) are never invoked. -/
theorem collision_event_classes_C2 (s : Scene) (a b : Entity)
    (ha : a ∈ s.entities) (hb : b ∈ s.entities) (hij : a.id ≠ b.id)
    (hids : (s.entities.map (fun e => e.id)).Nodup)
    (hprevnd : s.previousCollisions.Nodup)
    (hprevkeys : ∀ k ∈ s.previousCollisions, k.1 < k.2) :
    (collides a b = true → newCollisionPairKey a.id b.id ∉ s.previousCollisions →
      ((s.detectCollisions).2.count (CollisionEvent.enter a.id b.id)
          = (if a.hasOnEnter then 1 else 0)
       ∧ (s.detectCollisions).2.count (CollisionEvent.enter b.id a.id)
          = (if b.hasOnEnter then 1 else 0)
       ∧ (s.detectCollisions).2.count (CollisionEvent.stay a.id b.id) = 0
       ∧ (s.detectCollisions).2.count (CollisionEvent.stay b.id a.id) = 0
       ∧ (s.detectCollisions).2.count (CollisionEvent.exit a.id b.id) = 0
       ∧ (s.detectCollisions).2.count (CollisionEvent.exit b.id a.id) = 0))
    ∧ (collides a b = true → newCollisionPairKey a.id b.id ∈ s.previousCollisions →
      ((s.detectCollisions).2.count (CollisionEvent.stay a.id b.id)
          = (if a.hasOnStay then 1 else 0)
       ∧ (s.detectCollisions).2.count (CollisionEvent.stay b.id a.id)
          = (if b.hasOnStay then 1 else 0)
       ∧ (s.detectCollisions).2.count (CollisionEvent.enter a.id b.id) = 0
       ∧ (s.detectCollisions).2.count (CollisionEvent.enter b.id a.id) = 0
       ∧ (s.detectCollisions).2.count (CollisionEvent.exit a.id b.id) = 0
       ∧ (s.detectCollisions).2.count (CollisionEvent.exit b.id a.id) = 0))
    ∧ (collides a b = false → newCollisionPairKey a.id b.id ∈ s.previousCollisions →
      ((s.detectCollisions).2.count (CollisionEvent.exit a.id b.id)
          = (if a.hasOnExit then 1 else 0)
       ∧ (s.detectCollisions).2.count (CollisionEvent.exit b.id a.id)
          = (if b.hasOnExit then 1 else 0)
       ∧ (s.detectCollisions).2.count (CollisionEvent.enter a.id b.id) = 0
       ∧ (s.detectCollisions).2.count (CollisionEvent.enter b.id a.id) = 0
       ∧ (s.detectCollisions).2.count (CollisionEvent.stay a.id b.id) = 0
       ∧ (s.detectCollisions).2.count (CollisionEvent.stay b.id a.id) = 0))
    ∧ (collides a b = false → newCollisionPairKey a.id b.id ∉ s.previousCollisions →
      ((s.detectCollisions).2.count (CollisionEvent.enter a.id b.id) = 0
       ∧ (s.detectCollisions).2.count (CollisionEvent.enter b.id a.id) = 0
       ∧ (s.detectCollisions).2.count (CollisionEvent.stay a.id b.id) = 0
       ∧ (s.detectCollisions).2.count (CollisionEvent.stay b.id a.id) = 0
       ∧ (s.detectCollisions).2.count (CollisionEvent.exit a.id b.id) = 0
       ∧ (s.detectCollisions).2.count (CollisionEvent.exit b.id a.id) = 0))
    ∧ (∀ k ∈ s.previousCollisions,
        ((¬∃ e ∈ s.entities, e.id = k.1) ∨ (¬∃ e ∈ s.entities, e.id = k.2)) →
        ((s.detectCollisions).2.count (CollisionEvent.exit k.1 k.2) = 0
         ∧ (s.detectCollisions).2.count (CollisionEvent.exit k.2 k.1) = 0)) := by
  set cols := DetectCollisions s.entities with hcols
  set pc := processCollisions s.previousCollisions cols [] with hpc
  set k0 := newCollisionPairKey a.id b.id with hk0
  have hevs : (s.detectCollisions).2
      = pc.2 ++ processExits s.entities pc.1 s.previousCollisions := by
    rw [hpc, hcols]
    rfl
  have hcnt : ∀ ev : CollisionEvent, (s.detectCollisions).2.count ev
      = pc.2.count ev + (processExits s.entities pc.1 s.previousCollisions).count ev := by
    intro ev
    rw [hevs, List.count_append]
  have hpc2 : ∀ ev : CollisionEvent, pc.2.count ev
      = (cols.map (fun q =>
          ((if newCollisionPairKey q.1.id q.2.id ∈ s.previousCollisions then
              stayEvents q.1 q.2
            else enterEvents q.1 q.2).count ev))).sum := by
    intro ev
    rw [hpc, processCollisions_events, count_flatMap]
  have hexits : ∀ ev : CollisionEvent,
      ((processExits s.entities pc.1 s.previousCollisions).count ev)
        = (s.previousCollisions.map (fun k =>
            ((if k ∈ pc.1 then ([] : List CollisionEvent)
              else
                match findPairEntities k s.entities with
                | (some x, some y) => exitEvents x y
                | _ => []).count ev))).sum :=
    fun ev => processExits_count s.entities pc.1 ev s.previousCollisions
  have hknd := detect_keys_nodup s.entities hids
  have hcolsnd : cols.Nodup := List.Nodup.of_map _ hknd
  have hkeyinj : ∀ q ∈ cols, ∀ q' ∈ cols,
      newCollisionPairKey q.1.id q.2.id = newCollisionPairKey q'.1.id q'.2.id → q = q' :=
    fun q hq q' hq' heq => List.inj_on_of_nodup_map hknd hq hq' heq
  have hmemcols : collides a b = true → (a, b) ∈ cols ∨ (b, a) ∈ cols := by
    intro hcol
    have hne : a ≠ b := fun h => hij (by rw [h])
    rcases mem_split_pair s.entities a b ha hb hne with ⟨l1, l2, heq, hm⟩ | ⟨l1, l2, heq, hm⟩
    · left
      rw [hcols, heq]
      exact detect_complete l1 a l2 b hm hcol
    · right
      rw [hcols, heq]
      refine detect_complete l1 b l2 a hm ?_
      rw [← collides_comm]
      exact hcol
  have huniq : ∀ q ∈ cols, newCollisionPairKey q.1.id q.2.id = k0 →
      q = (a, b) ∨ q = (b, a) := by
    intro q hq hkey
    obtain ⟨hq1, hq2, _⟩ := detect_sound s.entities q (by rw [← hcols]; exact hq)
    rw [hk0] at hkey
    rcases (pairKey_eq_iff _ _ _ _).mp hkey with ⟨h1, h2⟩ | ⟨h1, h2⟩
    · left
      exact Prod.ext (entity_eq_of_id hids hq1 ha h1) (entity_eq_of_id hids hq2 hb h2)
    · right
      exact Prod.ext (entity_eq_of_id hids hq1 hb h1) (entity_eq_of_id hids hq2 ha h2)
  have hnokey : collides a b = false → ∀ q ∈ cols,
      newCollisionPairKey q.1.id q.2.id ≠ k0 := by
    intro hncol q hq hkey
    rcases huniq q hq hkey with rfl | rfl
    · obtain ⟨_, _, hc⟩ := detect_sound s.entities (a, b) (by rw [← hcols]; exact hq)
      have hc' : collides a b = true := hc
      rw [hncol] at hc'
      exact Bool.noConfusion hc'
    · obtain ⟨_, _, hc⟩ := detect_sound s.entities (b, a) (by rw [← hcols]; exact hq)
      have hc' : collides a b = true := by
        rw [collides_comm]
        exact hc
      rw [hncol] at hc'
      exact Bool.noConfusion hc'
  have hcur : ∀ k : ℕ × ℕ, k ∈ pc.1 ↔ ∃ p ∈ cols, newCollisionPairKey p.1.id p.2.id = k := by
    intro k
    rw [hpc, processCollisions_current]
    simp
  have hn12 : ∀ (q : Entity × Entity), newCollisionPairKey q.1.id q.2.id ≠ k0 →
      ∀ i j : ℕ, ((i = a.id ∧ j = b.id) ∨ (i = b.id ∧ j = a.id)) →
      (¬(i = q.1.id ∧ j = q.2.id) ∧ ¬(i = q.2.id ∧ j = q.1.id)) := by
    intro q hkq i j horient
    constructor
    · rintro ⟨rfl, rfl⟩
      apply hkq
      rcases horient with ⟨e1, e2⟩ | ⟨e1, e2⟩
      · rw [hk0, e1, e2]
      · rw [hk0, e1, e2]
        exact pairKey_comm _ _
    · rintro ⟨rfl, rfl⟩
      apply hkq
      rcases horient with ⟨e1, e2⟩ | ⟨e1, e2⟩
      · rw [hk0, e1, e2]
        exact pairKey_comm _ _
      · rw [hk0, e1, e2]
  have hpcexit : ∀ i j : ℕ, pc.2.count (CollisionEvent.exit i j) = 0 := by
    intro i j
    rw [hpc2]
    apply List.sum_eq_zero
    intro n hn
    obtain ⟨q, _, rfl⟩ := List.mem_map.mp hn
    exact pairEvents_count_exit _ q i j
  have hexenter : ∀ i j : ℕ,
      ((processExits s.entities pc.1 s.previousCollisions).count
        (CollisionEvent.enter i j)) = 0 := by
    intro i j
    rw [hexits]
    apply List.sum_eq_zero
    intro n hn
    obtain ⟨k, _, rfl⟩ := List.mem_map.mp hn
    exact exitContribution_count_enter s.entities pc.1 k i j
  have hexstay : ∀ i j : ℕ,
      ((processExits s.entities pc.1 s.previousCollisions).count
        (CollisionEvent.stay i j)) = 0 := by
    intro i j
    rw [hexits]
    apply List.sum_eq_zero
    intro n hn
    obtain ⟨k, _, rfl⟩ := List.mem_map.mp hn
    exact exitContribution_count_stay s.entities pc.1 k i j
  have hk0lt : k0.1 < k0.2 := by
    rw [hk0]
    exact pairKey_lt a.id b.id hij
  have hk0cases : (k0.1 = a.id ∧ k0.2 = b.id) ∨ (k0.1 = b.id ∧ k0.2 = a.id) := by
    rw [hk0]
    exact pairKey_cases a.id b.id
  have hexzero_overlap : k0 ∈ pc.1 → ∀ i j : ℕ,
      ((i = a.id ∧ j = b.id) ∨ (i = b.id ∧ j = a.id)) →
      ((processExits s.entities pc.1 s.previousCollisions).count
        (CollisionEvent.exit i j)) = 0 := by
    intro hk0cur i j horient
    rw [hexits]
    apply List.sum_eq_zero
    intro n hn
    obtain ⟨k, hk, rfl⟩ := List.mem_map.mp hn
    by_cases hkk0 : k = k0
    · rw [hkk0]
      exact exitContribution_count_zero s.entities pc.1 k0 i j (Or.inl hk0cur)
    · apply exitContribution_count_zero
      right
      have hlt := hprevkeys k hk
      constructor
      · rintro ⟨h1, h2⟩
        apply hkk0
        rcases horient with ⟨rfl, rfl⟩ | ⟨rfl, rfl⟩ <;>
          rcases hk0cases with ⟨e1, e2⟩ | ⟨e1, e2⟩ <;>
          exact Prod.ext (by omega) (by omega)
      · rintro ⟨h1, h2⟩
        apply hkk0
        rcases horient with ⟨rfl, rfl⟩ | ⟨rfl, rfl⟩ <;>
          rcases hk0cases with ⟨e1, e2⟩ | ⟨e1, e2⟩ <;>
          exact Prod.ext (by omega) (by omega)
  refine ⟨?_, ?_, ?_, ?_, ?_⟩
  · -- enter class
    intro hcol hnot
    have hk0cur : k0 ∈ pc.1 := by
      rcases hmemcols hcol with hp0 | hp0
      · exact (hcur k0).mpr ⟨(a, b), hp0, hk0.symm⟩
      · refine (hcur k0).mpr ⟨(b, a), hp0, ?_⟩
        rw [hk0]
        exact pairKey_comm _ _
    rcases hmemcols hcol with hp0 | hp0
    · have hp0key : newCollisionPairKey (a, b).1.id (a, b).2.id = k0 := hk0.symm
      have hz : ∀ ev : CollisionEvent,
          (∀ q ∈ cols, q ≠ (a, b) →
            ((if newCollisionPairKey q.1.id q.2.id ∈ s.previousCollisions then
                stayEvents q.1 q.2
              else enterEvents q.1 q.2).count ev) = 0) →
          pc.2.count ev
            = ((if newCollisionPairKey (a, b).1.id (a, b).2.id ∈ s.previousCollisions then
                  stayEvents (a, b).1 (a, b).2
                else enterEvents (a, b).1 (a, b).2).count ev) := by
        intro ev hzz
        rw [hpc2]
        exact sum_map_single cols _ (a, b) hcolsnd hp0 hzz
      have hkq : ∀ q ∈ cols, q ≠ (a, b) → newCollisionPairKey q.1.id q.2.id ≠ k0 := by
        intro q hq hne hkeq
        exact hne (hkeyinj q hq (a, b) hp0 (hkeq.trans hp0key.symm))
      refine ⟨?_, ?_, ?_, ?_, ?_, ?_⟩
      · rw [hcnt, hexenter, hz]
        · rw [hp0key, if_neg hnot]
          rw [count_enterEvents_self a b hij]
          omega
        · intro q hq hne
          exact pairEvents_count_enter_zero _ q _ _
            (hn12 q (hkq q hq hne) _ _ (Or.inl ⟨rfl, rfl⟩)).1
            (hn12 q (hkq q hq hne) _ _ (Or.inl ⟨rfl, rfl⟩)).2
      · rw [hcnt, hexenter, hz]
        · rw [hp0key, if_neg hnot]
          rw [count_enterEvents_swap a b hij]
          omega
        · intro q hq hne
          exact pairEvents_count_enter_zero _ q _ _
            (hn12 q (hkq q hq hne) _ _ (Or.inr ⟨rfl, rfl⟩)).1
            (hn12 q (hkq q hq hne) _ _ (Or.inr ⟨rfl, rfl⟩)).2
      · rw [hcnt, hexstay, hz]
        · rw [hp0key, if_neg hnot]
          rw [count_enterEvents_stay]
        · intro q hq hne
          exact pairEvents_count_stay_zero _ q _ _
            (hn12 q (hkq q hq hne) _ _ (Or.inl ⟨rfl, rfl⟩)).1
            (hn12 q (hkq q hq hne) _ _ (Or.inl ⟨rfl, rfl⟩)).2
      · rw [hcnt, hexstay, hz]
        · rw [hp0key, if_neg hnot]
          rw [count_enterEvents_stay]
        · intro q hq hne
          exact pairEvents_count_stay_zero _ q _ _
            (hn12 q (hkq q hq hne) _ _ (Or.inr ⟨rfl, rfl⟩)).1
            (hn12 q (hkq q hq hne) _ _ (Or.inr ⟨rfl, rfl⟩)).2
      · rw [hcnt, hpcexit, hexzero_overlap hk0cur _ _ (Or.inl ⟨rfl, rfl⟩)]
      · rw [hcnt, hpcexit, hexzero_overlap hk0cur _ _ (Or.inr ⟨rfl, rfl⟩)]
    · have hp0key : newCollisionPairKey (b, a).1.id (b, a).2.id = k0 := by
        rw [hk0]
        exact pairKey_comm _ _
      have hz : ∀ ev : CollisionEvent,
          (∀ q ∈ cols, q ≠ (b, a) →
            ((if newCollisionPairKey q.1.id q.2.id ∈ s.previousCollisions then
                stayEvents q.1 q.2
              else enterEvents q.1 q.2).count ev) = 0) →
          pc.2.count ev
            = ((if newCollisionPairKey (b, a).1.id (b, a).2.id ∈ s.previousCollisions then
                  stayEvents (b, a).1 (b, a).2
                else enterEvents (b, a).1 (b, a).2).count ev) := by
        intro ev hzz
        rw [hpc2]
        exact sum_map_single cols _ (b, a) hcolsnd hp0 hzz
      have hkq : ∀ q ∈ cols, q ≠ (b, a) → newCollisionPairKey q.1.id q.2.id ≠ k0 := by
        intro q hq hne hkeq
        exact hne (hkeyinj q hq (b, a) hp0 (hkeq.trans hp0key.symm))
      refine ⟨?_, ?_, ?_, ?_, ?_, ?_⟩
      · rw [hcnt, hexenter, hz]
        · rw [hp0key, if_neg hnot]
          rw [count_enterEvents_swap b a (Ne.symm hij)]
          omega
        · intro q hq hne
          exact pairEvents_count_enter_zero _ q _ _
            (hn12 q (hkq q hq hne) _ _ (Or.inl ⟨rfl, rfl⟩)).1
            (hn12 q (hkq q hq hne) _ _ (Or.inl ⟨rfl, rfl⟩)).2
      · rw [hcnt, hexenter, hz]
        · rw [hp0key, if_neg hnot]
          rw [count_enterEvents_self b a (Ne.symm hij)]
          omega
        · intro q hq hne
          exact pairEvents_count_enter_zero _ q _ _
            (hn12 q (hkq q hq hne) _ _ (Or.inr ⟨rfl, rfl⟩)).1
            (hn12 q (hkq q hq hne) _ _ (Or.inr ⟨rfl, rfl⟩)).2
      · rw [hcnt, hexstay, hz]
        · rw [hp0key, if_neg hnot]
          rw [count_enterEvents_stay]
        · intro q hq hne
          exact pairEvents_count_stay_zero _ q _ _
            (hn12 q (hkq q hq hne) _ _ (Or.inl ⟨rfl, rfl⟩)).1
            (hn12 q (hkq q hq hne) _ _ (Or.inl ⟨rfl, rfl⟩)).2
      · rw [hcnt, hexstay, hz]
        · rw [hp0key, if_neg hnot]
          rw [count_enterEvents_stay]
        · intro q hq hne
          exact pairEvents_count_stay_zero _ q _ _
            (hn12 q (hkq q hq hne) _ _ (Or.inr ⟨rfl, rfl⟩)).1
            (hn12 q (hkq q hq hne) _ _ (Or.inr ⟨rfl, rfl⟩)).2
      · rw [hcnt, hpcexit, hexzero_overlap hk0cur _ _ (Or.inl ⟨rfl, rfl⟩)]
      · rw [hcnt, hpcexit, hexzero_overlap hk0cur _ _ (Or.inr ⟨rfl, rfl⟩)]
  · -- stay class
    intro hcol hin
    have hk0cur : k0 ∈ pc.1 := by
      rcases hmemcols hcol with hp0 | hp0
      · exact (hcur k0).mpr ⟨(a, b), hp0, hk0.symm⟩
      · refine (hcur k0).mpr ⟨(b, a), hp0, ?_⟩
        rw [hk0]
        exact pairKey_comm _ _
    rcases hmemcols hcol with hp0 | hp0
    · have hp0key : newCollisionPairKey (a, b).1.id (a, b).2.id = k0 := hk0.symm
      have hz : ∀ ev : CollisionEvent,
          (∀ q ∈ cols, q ≠ (a, b) →
            ((if newCollisionPairKey q.1.id q.2.id ∈ s.previousCollisions then
                stayEvents q.1 q.2
              else enterEvents q.1 q.2).count ev) = 0) →
          pc.2.count ev
            = ((if newCollisionPairKey (a, b).1.id (a, b).2.id ∈ s.previousCollisions then
                  stayEvents (a, b).1 (a, b).2
                else enterEvents (a, b).1 (a, b).2).count ev) := by
        intro ev hzz
        rw [hpc2]
        exact sum_map_single cols _ (a, b) hcolsnd hp0 hzz
      have hkq : ∀ q ∈ cols, q ≠ (a, b) → newCollisionPairKey q.1.id q.2.id ≠ k0 := by
        intro q hq hne hkeq
        exact hne (hkeyinj q hq (a, b) hp0 (hkeq.trans hp0key.symm))
      have hin' : newCollisionPairKey (a, b).1.id (a, b).2.id ∈ s.previousCollisions := by
        rw [hp0key]
        exact hin
      refine ⟨?_, ?_, ?_, ?_, ?_, ?_⟩
      · rw [hcnt, hexstay, hz]
        · rw [if_pos hin']
          rw [count_stayEvents_self a b hij]
          omega
        · intro q hq hne
          exact pairEvents_count_stay_zero _ q _ _
            (hn12 q (hkq q hq hne) _ _ (Or.inl ⟨rfl, rfl⟩)).1
            (hn12 q (hkq q hq hne) _ _ (Or.inl ⟨rfl, rfl⟩)).2
      · rw [hcnt, hexstay, hz]
        · rw [if_pos hin']
          rw [count_stayEvents_swap a b hij]
          omega
        · intro q hq hne
          exact pairEvents_count_stay_zero _ q _ _
            (hn12 q (hkq q hq hne) _ _ (Or.inr ⟨rfl, rfl⟩)).1
            (hn12 q (hkq q hq hne) _ _ (Or.inr ⟨rfl, rfl⟩)).2
      · rw [hcnt, hexenter, hz]
        · rw [if_pos hin']
          rw [count_stayEvents_enter]
        · intro q hq hne
          exact pairEvents_count_enter_zero _ q _ _
            (hn12 q (hkq q hq hne) _ _ (Or.inl ⟨rfl, rfl⟩)).1
            (hn12 q (hkq q hq hne) _ _ (Or.inl ⟨rfl, rfl⟩)).2
      · rw [hcnt, hexenter, hz]
        · rw [if_pos hin']
          rw [count_stayEvents_enter]
        · intro q hq hne
          exact pairEvents_count_enter_zero _ q _ _
            (hn12 q (hkq q hq hne) _ _ (Or.inr ⟨rfl, rfl⟩)).1
            (hn12 q (hkq q hq hne) _ _ (Or.inr ⟨rfl, rfl⟩)).2
      · rw [hcnt, hpcexit, hexzero_overlap hk0cur _ _ (Or.inl ⟨rfl, rfl⟩)]
      · rw [hcnt, hpcexit, hexzero_overlap hk0cur _ _ (Or.inr ⟨rfl, rfl⟩)]
    · have hp0key : newCollisionPairKey (b, a).1.id (b, a).2.id = k0 := by
        rw [hk0]
        exact pairKey_comm _ _
      have hz : ∀ ev : CollisionEvent,
          (∀ q ∈ cols, q ≠ (b, a) →
            ((if newCollisionPairKey q.1.id q.2.id ∈ s.previousCollisions then
                stayEvents q.1 q.2
              else enterEvents q.1 q.2).count ev) = 0) →
          pc.2.count ev
            = ((if newCollisionPairKey (b, a).1.id (b, a).2.id ∈ s.previousCollisions then
                  stayEvents (b, a).1 (b, a).2
                else enterEvents (b, a).1 (b, a).2).count ev) := by
        intro ev hzz
        rw [hpc2]
        exact sum_map_single cols _ (b, a) hcolsnd hp0 hzz
      have hkq : ∀ q ∈ cols, q ≠ (b, a) → newCollisionPairKey q.1.id q.2.id ≠ k0 := by
        intro q hq hne hkeq
        exact hne (hkeyinj q hq (b, a) hp0 (hkeq.trans hp0key.symm))
      have hin' : newCollisionPairKey (b, a).1.id (b, a).2.id ∈ s.previousCollisions := by
        rw [hp0key]
        exact hin
      refine ⟨?_, ?_, ?_, ?_, ?_, ?_⟩
      · rw [hcnt, hexstay, hz]
        · rw [if_pos hin']
          rw [count_stayEvents_swap b a (Ne.symm hij)]
          omega
        · intro q hq hne
          exact pairEvents_count_stay_zero _ q _ _
            (hn12 q (hkq q hq hne) _ _ (Or.inl ⟨rfl, rfl⟩)).1
            (hn12 q (hkq q hq hne) _ _ (Or.inl ⟨rfl, rfl⟩)).2
      · rw [hcnt, hexstay, hz]
        · rw [if_pos hin']
          rw [count_stayEvents_self b a (Ne.symm hij)]
          omega
        · intro q hq hne
          exact pairEvents_count_stay_zero _ q _ _
            (hn12 q (hkq q hq hne) _ _ (Or.inr ⟨rfl, rfl⟩)).1
            (hn12 q (hkq q hq hne) _ _ (Or.inr ⟨rfl, rfl⟩)).2
      · rw [hcnt, hexenter, hz]
        · rw [if_pos hin']
          rw [count_stayEvents_enter]
        · intro q hq hne
          exact pairEvents_count_enter_zero _ q _ _
            (hn12 q (hkq q hq hne) _ _ (Or.inl ⟨rfl, rfl⟩)).1
            (hn12 q (hkq q hq hne) _ _ (Or.inl ⟨rfl, rfl⟩)).2
      · rw [hcnt, hexenter, hz]
        · rw [if_pos hin']
          rw [count_stayEvents_enter]
        · intro q hq hne
          exact pairEvents_count_enter_zero _ q _ _
            (hn12 q (hkq q hq hne) _ _ (Or.inr ⟨rfl, rfl⟩)).1
            (hn12 q (hkq q hq hne) _ _ (Or.inr ⟨rfl, rfl⟩)).2
      · rw [hcnt, hpcexit, hexzero_overlap hk0cur _ _ (Or.inl ⟨rfl, rfl⟩)]
      · rw [hcnt, hpcexit, hexzero_overlap hk0cur _ _ (Or.inr ⟨rfl, rfl⟩)]
  · -- exit class
    intro hncol hin
    have hall : ∀ q ∈ cols, newCollisionPairKey q.1.id q.2.id ≠ k0 := hnokey hncol
    have hk0notcur : k0 ∉ pc.1 := by
      intro hmem
      obtain ⟨p, hp, hkey⟩ := (hcur k0).mp hmem
      exact hall p hp hkey
    have hpcz : ∀ i j : ℕ, ((i = a.id ∧ j = b.id) ∨ (i = b.id ∧ j = a.id)) →
        pc.2.count (CollisionEvent.enter i j) = 0
        ∧ pc.2.count (CollisionEvent.stay i j) = 0 := by
      intro i j horient
      constructor
      · rw [hpc2]
        apply List.sum_eq_zero
        intro n hn
        obtain ⟨q, hq, rfl⟩ := List.mem_map.mp hn
        exact pairEvents_count_enter_zero _ q i j
          (hn12 q (hall q hq) i j horient).1 (hn12 q (hall q hq) i j horient).2
      · rw [hpc2]
        apply List.sum_eq_zero
        intro n hn
        obtain ⟨q, hq, rfl⟩ := List.mem_map.mp hn
        exact pairEvents_count_stay_zero _ q i j
          (hn12 q (hall q hq) i j horient).1 (hn12 q (hall q hq) i j horient).2
    have hcontrib : ∀ i j : ℕ,
        ((if k0 ∈ pc.1 then ([] : List CollisionEvent)
          else
            match findPairEntities k0 s.entities with
            | (some x, some y) => exitEvents x y
            | _ => []).count (CollisionEvent.exit i j))
          = (match findPairEntities k0 s.entities with
             | (some x, some y) => exitEvents x y
             | _ => []).count (CollisionEvent.exit i j) := by
      intro i j
      rw [if_neg hk0notcur]
    have hfound : (k0.1 = a.id ∧ k0.2 = b.id ∧
          findPairEntities k0 s.entities = (some a, some b))
        ∨ (k0.1 = b.id ∧ k0.2 = a.id ∧
          findPairEntities k0 s.entities = (some b, some a)) := by
      rcases hk0cases with ⟨e1, e2⟩ | ⟨e1, e2⟩
      · left
        refine ⟨e1, e2, ?_⟩
        exact findPair_found k0 (by omega) s.entities hids a b ha e1.symm hb e2.symm
      · right
        refine ⟨e1, e2, ?_⟩
        exact findPair_found k0 (by omega) s.entities hids b a hb e1.symm ha e2.symm
    have hexcount : ∀ i j : ℕ, ((i = a.id ∧ j = b.id) ∨ (i = b.id ∧ j = a.id)) →
        ∀ c : ℕ,
        ((match findPairEntities k0 s.entities with
          | (some x, some y) => exitEvents x y
          | _ => []).count (CollisionEvent.exit i j)) = c →
        ((processExits s.entities pc.1 s.previousCollisions).count
          (CollisionEvent.exit i j)) = c := by
      intro i j horient c hc
      rw [hexits]
      rw [sum_map_single s.previousCollisions _ k0 hprevnd hin ?hz]
      · rw [hcontrib]
        exact hc
      case hz =>
        intro k hk hkk0
        apply exitContribution_count_zero
        right
        have hlt := hprevkeys k hk
        constructor
        · rintro ⟨h1, h2⟩
          apply hkk0
          rcases horient with ⟨rfl, rfl⟩ | ⟨rfl, rfl⟩ <;>
            rcases hk0cases with ⟨e1, e2⟩ | ⟨e1, e2⟩ <;>
            exact Prod.ext (by omega) (by omega)
        · rintro ⟨h1, h2⟩
          apply hkk0
          rcases horient with ⟨rfl, rfl⟩ | ⟨rfl, rfl⟩ <;>
            rcases hk0cases with ⟨e1, e2⟩ | ⟨e1, e2⟩ <;>
            exact Prod.ext (by omega) (by omega)
    refine ⟨?_, ?_, ?_, ?_, ?_, ?_⟩
    · rcases hfound with ⟨e1, e2, hfp⟩ | ⟨e1, e2, hfp⟩
      · have hc : ((match findPairEntities k0 s.entities with
            | (some x, some y) => exitEvents x y
            | _ => []).count (CollisionEvent.exit a.id b.id))
            = (if a.hasOnExit then 1 else 0) := by
          rw [hfp]
          exact count_exitEvents_self a b hij
        rw [hcnt, hpcexit,
          hexcount a.id b.id (Or.inl ⟨rfl, rfl⟩) (if a.hasOnExit then 1 else 0) hc]
        omega
      · have hc : ((match findPairEntities k0 s.entities with
            | (some x, some y) => exitEvents x y
            | _ => []).count (CollisionEvent.exit a.id b.id))
            = (if a.hasOnExit then 1 else 0) := by
          rw [hfp]
          exact count_exitEvents_swap b a (Ne.symm hij)
        rw [hcnt, hpcexit,
          hexcount a.id b.id (Or.inl ⟨rfl, rfl⟩) (if a.hasOnExit then 1 else 0) hc]
        omega
    · rcases hfound with ⟨e1, e2, hfp⟩ | ⟨e1, e2, hfp⟩
      · have hc : ((match findPairEntities k0 s.entities with
            | (some x, some y) => exitEvents x y
            | _ => []).count (CollisionEvent.exit b.id a.id))
            = (if b.hasOnExit then 1 else 0) := by
          rw [hfp]
          exact count_exitEvents_swap a b hij
        rw [hcnt, hpcexit,
          hexcount b.id a.id (Or.inr ⟨rfl, rfl⟩) (if b.hasOnExit then 1 else 0) hc]
        omega
      · have hc : ((match findPairEntities k0 s.entities with
            | (some x, some y) => exitEvents x y
            | _ => []).count (CollisionEvent.exit b.id a.id))
            = (if b.hasOnExit then 1 else 0) := by
          rw [hfp]
          exact count_exitEvents_self b a (Ne.symm hij)
        rw [hcnt, hpcexit,
          hexcount b.id a.id (Or.inr ⟨rfl, rfl⟩) (if b.hasOnExit then 1 else 0) hc]
        omega
    · rw [hcnt, (hpcz a.id b.id (Or.inl ⟨rfl, rfl⟩)).1, hexenter]
    · rw [hcnt, (hpcz b.id a.id (Or.inr ⟨rfl, rfl⟩)).1, hexenter]
    · rw [hcnt, (hpcz a.id b.id (Or.inl ⟨rfl, rfl⟩)).2, hexstay]
    · rw [hcnt, (hpcz b.id a.id (Or.inr ⟨rfl, rfl⟩)).2, hexstay]
  · -- no-event class
    intro hncol hnot
    have hall := hnokey hncol
    have hpcz : ∀ i j : ℕ, ((i = a.id ∧ j = b.id) ∨ (i = b.id ∧ j = a.id)) →
        pc.2.count (CollisionEvent.enter i j) = 0
        ∧ pc.2.count (CollisionEvent.stay i j) = 0 := by
      intro i j horient
      constructor
      · rw [hpc2]
        apply List.sum_eq_zero
        intro n hn
        obtain ⟨q, hq, rfl⟩ := List.mem_map.mp hn
        exact pairEvents_count_enter_zero _ q i j
          (hn12 q (hall q hq) i j horient).1 (hn12 q (hall q hq) i j horient).2
      · rw [hpc2]
        apply List.sum_eq_zero
        intro n hn
        obtain ⟨q, hq, rfl⟩ := List.mem_map.mp hn
        exact pairEvents_count_stay_zero _ q i j
          (hn12 q (hall q hq) i j horient).1 (hn12 q (hall q hq) i j horient).2
    have hexz : ∀ i j : ℕ, ((i = a.id ∧ j = b.id) ∨ (i = b.id ∧ j = a.id)) →
        ((processExits s.entities pc.1 s.previousCollisions).count
          (CollisionEvent.exit i j)) = 0 := by
      intro i j horient
      rw [hexits]
      apply List.sum_eq_zero
      intro n hn
      obtain ⟨k, hk, rfl⟩ := List.mem_map.mp hn
      have hkk0 : k ≠ k0 := fun h => hnot (h ▸ hk)
      apply exitContribution_count_zero
      right
      have hlt := hprevkeys k hk
      constructor
      · rintro ⟨h1, h2⟩
        apply hkk0
        rcases horient with ⟨rfl, rfl⟩ | ⟨rfl, rfl⟩ <;>
          rcases hk0cases with ⟨e1, e2⟩ | ⟨e1, e2⟩ <;>
          exact Prod.ext (by omega) (by omega)
      · rintro ⟨h1, h2⟩
        apply hkk0
        rcases horient with ⟨rfl, rfl⟩ | ⟨rfl, rfl⟩ <;>
          rcases hk0cases with ⟨e1, e2⟩ | ⟨e1, e2⟩ <;>
          exact Prod.ext (by omega) (by omega)
    refine ⟨?_, ?_, ?_, ?_, ?_, ?_⟩
    · rw [hcnt, (hpcz a.id b.id (Or.inl ⟨rfl, rfl⟩)).1, hexenter]
    · rw [hcnt, (hpcz b.id a.id (Or.inr ⟨rfl, rfl⟩)).1, hexenter]
    · rw [hcnt, (hpcz a.id b.id (Or.inl ⟨rfl, rfl⟩)).2, hexstay]
    · rw [hcnt, (hpcz b.id a.id (Or.inr ⟨rfl, rfl⟩)).2, hexstay]
    · rw [hcnt, hpcexit, hexz a.id b.id (Or.inl ⟨rfl, rfl⟩)]
    · rw [hcnt, hpcexit, hexz b.id a.id (Or.inr ⟨rfl, rfl⟩)]
  · -- removed-entity class
    intro k hk hmiss
    have hmatch : (match findPairEntities k s.entities with
        | (some x, some y) => exitEvents x y
        | _ => []) = ([] : List CollisionEvent) := by
      rcases hmiss with hm | hm
      · have hnone : (findPairEntities k s.entities).1 = none := by
          apply findPair_fst_none
          intro e he hco
          exact hm ⟨e, he, hco⟩
        rcases hfp : findPairEntities k s.entities with ⟨oa, ob⟩
        rw [hfp] at hnone
        cases oa with
        | none => cases ob <;> rfl
        | some A => exact absurd hnone (by simp)
      · have hnone : (findPairEntities k s.entities).2 = none := by
          apply findPair_snd_none
          intro e he hco
          exact hm ⟨e, he, hco⟩
        rcases hfp : findPairEntities k s.entities with ⟨oa, ob⟩
        rw [hfp] at hnone
        cases ob with
        | none => cases oa <;> rfl
        | some B => exact absurd hnone (by simp)
    have hlt := hprevkeys k hk
    have hex1 : ((processExits s.entities pc.1 s.previousCollisions).count
        (CollisionEvent.exit k.1 k.2)) = 0 := by
      rw [hexits]
      apply List.sum_eq_zero
      intro n hn
      obtain ⟨kx, hkx, rfl⟩ := List.mem_map.mp hn
      by_cases hkk : kx = k
      · rw [hkk]
        by_cases hkcur : k ∈ pc.1
        · simp [hkcur]
        · rw [if_neg hkcur, hmatch]
          rfl
      · have hlt' := hprevkeys kx hkx
        apply exitContribution_count_zero
        right
        constructor
        · rintro ⟨h1, h2⟩
          exact hkk (Prod.ext h1 h2)
        · rintro ⟨h1, h2⟩
          omega
    have hex2 : ((processExits s.entities pc.1 s.previousCollisions).count
        (CollisionEvent.exit k.2 k.1)) = 0 := by
      rw [hexits]
      apply List.sum_eq_zero
      intro n hn
      obtain ⟨kx, hkx, rfl⟩ := List.mem_map.mp hn
      by_cases hkk : kx = k
      · rw [hkk]
        by_cases hkcur : k ∈ pc.1
        · simp [hkcur]
        · rw [if_neg hkcur, hmatch]
          rfl
      · have hlt' := hprevkeys kx hkx
        apply exitContribution_count_zero
        right
        constructor
        · rintro ⟨h1, h2⟩
          omega
        · rintro ⟨h1, h2⟩
          exact hkk (Prod.ext h2 h1)
    exact ⟨by rw [hcnt, hpcexit, hex1], by rw [hcnt, hpcexit, hex2]⟩

/-- Witness for C2: in the concrete scene with overlapping entities 1 and
2 (both carrying enter handlers, empty pair history), the tick produces
exactly one enter callback for entity 1 with other 2, and no stay or exit
callback for the pair. -/
theorem collision_event_classes_C2_witness :
    ((scnRemoval.detectCollisions).2.count (CollisionEvent.enter 1 2) = 1)
    ∧ ((scnRemoval.detectCollisions).2.count (CollisionEvent.stay 1 2) = 0)
    ∧ ((scnRemoval.detectCollisions).2.count (CollisionEvent.exit 1 2) = 0) := by
  have hcolAB : collides entA entB = true := by
    rw [collides_eq_of_colliders entA entB (NewCollider 10 10) (NewCollider 10 10) rfl rfl]
    have h1 : entA.active = true := rfl
    have h2 : entB.active = true := rfl
    have h3 : entA.transform = tfOrigin := rfl
    have h4 : entB.transform = tfNear := rfl
    rw [h1, h2, h3, h4, newColliders_intersect]
    rfl
  have h := (collision_event_classes_C2 scnRemoval entA entB
      (by simp [scnRemoval]) (by simp [scnRemoval])
      (by decide)
      (by simp [scnRemoval, entA, entB])
      List.nodup_nil
      (by simp [scnRemoval])).1 hcolAB (by simp [scnRemoval])
  exact ⟨h.1, h.2.2.1, h.2.2.2.2.1⟩

end Gogame
